import Mathlib

/-! The GoogleCT data source (`datasrcs/googlect.go`).

A shallow embedding of the Google certificate-transparency data source of
Amass: the URL builder `getURL`, the continuation-token pattern `tokenRE`
and the pagination loop of `OnDNSRequest`.

Conventions of the embedding.

* A Go `string` is a Lean `String`; where the Go library works on bytes
  (`url.QueryEscape`) the UTF-8 bytes of the text are computed explicitly,
  as natural numbers below 256.
* The effects of a request (events published on the bus, page fetches,
  rate-limiter waits) are recorded, in program order, in a list `Effect`.
* The network is an argument: `web n u` is the outcome of the `n`-th fetch
  of the request when it asks for the URL `u`.
* The `for` loop of `OnDNSRequest` has no bound of its own; `loop` takes a
  number of iterations it may run, and reports `Status.running` with the
  effects so far when that number is used up.
-/

namespace Amass

/-! ## `net/url`: escaping -/

/-- The escaping modes of `net/url` that the builder reaches. -/
inductive encoding where
  | encodePath
  | encodeHost
  | encodeQueryComponent
  deriving DecidableEq, Repr

/-- ASCII letters and digits, on a byte or code point given as a number. -/
def isAlnum (c : Nat) : Bool :=
  (97 ≤ c && c ≤ 122) || (65 ≤ c && c ≤ 90) || (48 ≤ c && c ≤ 57)

/-- Bytes that `shouldEscape` lets through in a host:
`! $ & ' ( ) * + , ; = : [ ] < > "`. -/
def hostAllowed (c : Nat) : Bool :=
  [33, 36, 38, 39, 40, 41, 42, 43, 44, 59, 61, 58, 91, 93, 60, 62, 34].contains c

/-- The unreserved marks `- _ . ~`. -/
def isMark (c : Nat) : Bool :=
  ['-'.toNat, '_'.toNat, '.'.toNat, '~'.toNat].contains c

/-- The reserved characters `$ & + , / : ; = ? @`. -/
def isReserved (c : Nat) : Bool :=
  ['$'.toNat, '&'.toNat, '+'.toNat, ','.toNat, '/'.toNat, ':'.toNat, ';'.toNat,
    '='.toNat, '?'.toNat, '@'.toNat].contains c

/-- Go `shouldEscape(c, mode)`: whether byte `c` is written as `%XX`. -/
def shouldEscape (c : Nat) (mode : encoding) : Bool :=
  if isAlnum c then false
  else if mode = encoding.encodeHost ∧ hostAllowed c then false
  else if isMark c then false
  else if isReserved c then
    match mode with
    | encoding.encodePath => c == '?'.toNat
    | encoding.encodeQueryComponent => true
    | encoding.encodeHost => true
  else true

/-- The digit of `"0123456789ABCDEF"` at index `n`. -/
def upperhex (n : Nat) : Char :=
  if n < 10 then Char.ofNat (48 + n) else Char.ofNat (55 + n)

/-- The UTF-8 bytes of one character. -/
def utf8Bytes (c : Char) : List Nat :=
  let n := c.toNat
  if n < 0x80 then [n]
  else if n < 0x800 then [0xC0 + n / 64, 0x80 + n % 64]
  else if n < 0x10000 then [0xE0 + n / 4096, 0x80 + (n / 64) % 64, 0x80 + n % 64]
  else [0xF0 + n / 262144, 0x80 + (n / 4096) % 64, 0x80 + (n / 64) % 64, 0x80 + n % 64]

/-- What `escape` writes for one byte. -/
def escapeByte (mode : encoding) (b : Nat) : List Char :=
  if shouldEscape b mode then
    if b = 32 ∧ mode = encoding.encodeQueryComponent then ['+']
    else ['%', upperhex (b / 16), upperhex (b % 16)]
  else [Char.ofNat b]

/-- Go `escape(s, mode)`, on the characters of `s`. -/
def escapeChars (mode : encoding) (s : List Char) : List Char :=
  (s.flatMap utf8Bytes).flatMap (escapeByte mode)

/-- Go `escape(s, mode)`. -/
def escape (s : String) (mode : encoding) : String :=
  ⟨escapeChars mode s.data⟩

/-- Go `url.QueryEscape`. -/
def QueryEscape (s : String) : String :=
  escape s encoding.encodeQueryComponent

/-! ## `net/url`: `Values` -/

/-- Go `url.Values`, a map from a key to its list of values, kept as an
association list with distinct keys. -/
abbrev Values := List (String × List String)

/-- Go `Values.Add(key, value)`: appends `value` to the values of `key`. -/
def Values.Add : Values → String → String → Values
  | [], key, value => [(key, [value])]
  | (k, vs) :: rest, key, value =>
    if k = key then (k, vs ++ [value]) :: rest
    else (k, vs) :: Values.Add rest key value

/-- Go `a < b` on strings: the order of the bytes, which on UTF-8 text is
the order of the code points, the shorter of two strings first when it
starts the other. -/
def lessChars : List Char → List Char → Bool
  | _, [] => false
  | [], _ :: _ => true
  | a :: as, b :: bs => a.toNat < b.toNat || (a.toNat = b.toNat && lessChars as bs)

/-- Inserts a key into a list of keys sorted in increasing order. -/
def insertKey (k : String) : List String → List String
  | [] => [k]
  | x :: xs => if lessChars k.data x.data then k :: x :: xs else x :: insertKey k xs

/-- The keys in increasing order (`slices.Sort(keys)`). -/
def sortKeys : List String → List String
  | [] => []
  | k :: ks => insertKey k (sortKeys ks)

/-- The values stored under `key` (`v[key]`). -/
def Values.lookup : Values → String → List String
  | [], _ => []
  | (k, vs) :: rest, key => if k = key then vs else Values.lookup rest key

/-- The inner loop of `Values.Encode`: writes `key=value` for each value,
with a `&` in front when the buffer is not empty. -/
def encodeKey (keyEscaped : List Char) : List Char → List String → List Char
  | buf, [] => buf
  | buf, v :: vs =>
    encodeKey keyEscaped
      ((if buf.length > 0 then buf ++ ['&'] else buf) ++ keyEscaped ++ ['=']
        ++ (QueryEscape v).data) vs

/-- The outer loop of `Values.Encode`, over the sorted keys. -/
def encodeKeys (v : Values) : List Char → List String → List Char
  | buf, [] => buf
  | buf, k :: ks => encodeKeys v (encodeKey (QueryEscape k).data buf (v.lookup k)) ks

/-- Go `Values.Encode`: the pairs `key=value`, both query-escaped, sorted by
key and joined with `&`. -/
def Values.Encode (v : Values) : String :=
  ⟨encodeKeys v [] (sortKeys (v.map Prod.fst))⟩

/-! ## `net/url`: `URL` -/

/-- The fields of Go `url.URL` that the builder sets or reads. -/
structure URL where
  Scheme : String
  Host : String
  Path : String
  RawQuery : String
  deriving DecidableEq, Repr

/-- Characters of a URL that `Parse` below accepts: letters, digits and
`- _ . ~ / :`. -/
def plainChar (c : Char) : Bool :=
  isAlnum c.toNat || isMark c.toNat || c = '/' || c = ':'

/-- Go `getScheme`, for a URL that has a scheme: the letters, digits and
`+ - .` up to the first `:` (the first of them a letter), and what follows
the `:`. -/
def getScheme : List Char → List Char → Option (List Char × List Char)
  | _, [] => none
  | acc, c :: cs =>
    if c.isAlpha then getScheme (acc ++ [c]) cs
    else if c.isDigit ∨ c = '+' ∨ c = '-' ∨ c = '.' then
      if acc = [] then none else getScheme (acc ++ [c]) cs
    else if c = ':' then
      if acc = [] then none else some (acc, cs)
    else none

/-- Go `url.Parse` on the URLs of the shape `scheme://host/path` written
with plain characters only (no query, fragment, user information or percent
escape); `none` for any other input. On this shape `Parse` lower-cases the
scheme, takes the host up to the first `/` and the rest as the path. -/
def Parse (rawURL : String) : Option URL :=
  if rawURL.data.all plainChar then
    match getScheme [] rawURL.data with
    | some (scheme, '/' :: '/' :: authority) =>
      some
        { Scheme := ⟨scheme.map Char.toLower⟩
          Host := ⟨authority.takeWhile (fun c => c ≠ '/')⟩
          Path := ⟨authority.dropWhile (fun c => c ≠ '/')⟩
          RawQuery := "" }
    | _ => none
  else none

/-- Go `URL.String` for a URL without opaque part, user information or
fragment: `scheme://host/path?query`. -/
def URL.String (u : URL) : String :=
  let scheme := if u.Scheme ≠ "" then u.Scheme ++ ":" else ""
  let authority :=
    if u.Scheme ≠ "" ∨ u.Host ≠ "" then
      (if u.Host ≠ "" ∨ u.Path ≠ "" then "//" else "")
        ++ (if u.Host ≠ "" then escape u.Host encoding.encodeHost else "")
    else ""
  let path := escape u.Path encoding.encodePath
  let slash := if path ≠ "" ∧ path.data.head? ≠ some '/' ∧ u.Host ≠ "" then "/" else ""
  let query := if u.RawQuery ≠ "" then "?" ++ u.RawQuery else ""
  scheme ++ authority ++ slash ++ path ++ query

/-! ## `regexp`: the continuation-token pattern -/

/-- The regular expressions that `tokenRE` is written with: literal
characters, character classes given by their ranges, concatenation,
alternation `a|b`, repetition `a+` and numbered capture groups. -/
inductive Regex where
  | empty
  | lit (c : Char)
  | cls (ranges : List (Char × Char))
  | cat (a b : Regex)
  | alt (a b : Regex)
  | plus (a : Regex)
  | cap (i : Nat) (a : Regex)
  deriving DecidableEq, Repr

/-- The text captured so far by each group; index 0 is the whole match. -/
abbrev Caps := List (List Char)

/-- A point of a match: the input still to read, and the captures. -/
abbrev MState := List Char × Caps

/-- Whether `c` lies in one of the ranges of a class. -/
def inRanges (ranges : List (Char × Char)) (c : Char) : Bool :=
  ranges.any (fun r => r.1.toNat ≤ c.toNat && c.toNat ≤ r.2.toNat)

/-- The ways `a+` matches, in order of preference, given the ways `step`
in which `a` matches once: after each match of `a` the longer continuations
come first (the repetition is greedy), then the stop. An iteration that
reads nothing is not repeated; `n` bounds the iterations by the length of
the input. -/
def plusIter (step : MState → List MState) : Nat → MState → List MState
  | 0, st => step st
  | n + 1, st =>
    (step st).flatMap
      (fun r => (if r.1.length < st.1.length then plusIter step n r else []) ++ [r])

/-- All the ways the expression matches at the start of the input, in the
order of preference of a leftmost-first (Perl-like) matcher such as Go
`regexp`: the first element is the match Go reports. -/
def Regex.run : Regex → MState → List MState
  | Regex.empty, st => [st]
  | Regex.lit c, st =>
    match st.1 with
    | x :: xs => if x = c then [(xs, st.2)] else []
    | [] => []
  | Regex.cls ranges, st =>
    match st.1 with
    | x :: xs => if inRanges ranges x then [(xs, st.2)] else []
    | [] => []
  | Regex.cat a b, st => (a.run st).flatMap b.run
  | Regex.alt a b, st => a.run st ++ b.run st
  | Regex.plus a, st => plusIter a.run st.1.length st
  | Regex.cap i a, st =>
    (a.run st).map (fun r => (r.1, r.2.set i (st.1.take (st.1.length - r.1.length))))

/-- Go `NumSubexp`: the number of capture groups. -/
def Regex.NumSubexp : Regex → Nat
  | Regex.empty => 0
  | Regex.lit _ => 0
  | Regex.cls _ => 0
  | Regex.cat a b => a.NumSubexp + b.NumSubexp
  | Regex.alt a b => a.NumSubexp + b.NumSubexp
  | Regex.plus a => a.NumSubexp
  | Regex.cap _ a => a.NumSubexp + 1

/-- The leftmost match: the first start position, from the left, at which
the expression matches, with the input from that position and the preferred
match there. -/
def Regex.search (re : Regex) (init : Caps) : List Char → Option (List Char × MState)
  | [] =>
    match re.run ([], init) with
    | r :: _ => some ([], r)
    | [] => none
  | x :: xs =>
    match re.run (x :: xs, init) with
    | r :: _ => some (x :: xs, r)
    | [] => Regex.search re init xs

/-- Go `FindStringSubmatch`: the text of the leftmost match and of each of
its groups (`""` for a group that took no part), or the empty (nil) slice
when there is no match. -/
def Regex.FindStringSubmatch (re : Regex) (s : String) : List String :=
  match re.search (List.replicate (re.NumSubexp + 1) []) s.data with
  | none => []
  | some (start, r) =>
    (r.2.set 0 (start.take (start.length - r.1.length))).map String.mk

/-- A sequence of literal characters. -/
def Regex.lits : List Char → Regex
  | [] => Regex.empty
  | [c] => Regex.lit c
  | c :: cs => Regex.cat (Regex.lit c) (Regex.lits cs)

/-- A concatenation of several expressions. -/
def Regex.seq : List Regex → Regex
  | [] => Regex.empty
  | [a] => a
  | a :: as => Regex.cat a (Regex.seq as)

/-- The class `[a-zA-Z0-9]`. -/
def alnumClass : Regex := Regex.cls [('a', 'z'), ('A', 'Z'), ('0', '9')]

/-- The class `[0-9]`. -/
def digitClass : Regex := Regex.cls [('0', '9')]

/-- The pattern compiled in `NewGoogleCT`:
`\[(null|"[a-zA-Z0-9]+"),"([a-zA-Z0-9]+)",null,([0-9]+),([0-9]+)\]`. -/
def tokenPattern : Regex :=
  Regex.seq
    [ Regex.lit '[',
      Regex.cap 1
        (Regex.alt (Regex.lits "null".data)
          (Regex.seq [Regex.lit '"', Regex.plus alnumClass, Regex.lit '"'])),
      Regex.lits ",\"".data,
      Regex.cap 2 (Regex.plus alnumClass),
      Regex.lits "\",null,".data,
      Regex.cap 3 (Regex.plus digitClass),
      Regex.lit ',',
      Regex.cap 4 (Regex.plus digitClass),
      Regex.lit ']' ]

/-! ## Collaborators: configuration, context, event bus, transport -/

/-- A pattern compiled by the configuration (`cfg.DomainRegex`), known by
what `FindAllString(s, -1)` returns: the successive non-overlapping matches
of the pattern in `s`, in order. -/
structure DomainRegexp where
  FindAllString : String → List String

/-- The part of `config.Config` that the data source reads:
`cfg.DomainRegex(domain)`, nil (`none`) for a domain out of scope. -/
structure Config where
  DomainRegex : String → Option DomainRegexp

/-- The event bus; what is published on it is recorded as effects. -/
inductive EventBus where
  | mk

/-- What `ctx.Value(key)` holds: nothing (the nil interface), a value of
another type, a nil pointer of the expected type, or a pointer. -/
inductive CtxValue (α : Type) where
  | absent
  | other
  | nilPtr
  | ptr (v : α)

/-- The type assertion `ctx.Value(key).(*T)`: it panics (`none`) unless the
value is a pointer of type `*T`, which may be nil (`some none`). -/
def CtxValue.assert {α : Type} : CtxValue α → Option (Option α)
  | CtxValue.absent => none
  | CtxValue.other => none
  | CtxValue.nilPtr => some none
  | CtxValue.ptr v => some (some v)

/-- The `context.Context` of a request: the values under
`requests.ContextConfig` and `requests.ContextEventBus`, and its
cancellation: `cancelled = some k` when the context is cancelled while the
unit is blocked in its `k`-th blocking call (a page fetch or a rate-limit
wait), counted from 0; `none` when it is never cancelled. -/
structure Context where
  config : CtxValue Config
  bus : CtxValue EventBus
  cancelled : Option Nat

/-- The topics of the bus that the data source publishes on. -/
inductive Topic where
  | LogTopic
  | SetActiveTopic
  | NewNameTopic
  deriving DecidableEq, Repr

/-- The priorities of the bus that the data source uses. -/
inductive Priority where
  | PriorityHigh
  | PriorityCritical
  deriving DecidableEq, Repr

/-- Go `requests.DNSRequest`, with the fields that the data source sets. -/
structure DNSRequest where
  Name : String
  Domain : String
  Tag : String
  Source : String
  deriving DecidableEq, Repr

/-- The argument of a `Publish`: a text or a request. -/
inductive Arg where
  | text (s : String)
  | request (r : DNSRequest)
  deriving DecidableEq, Repr

/-- The things `OnDNSRequest` does to the outside, in program order. -/
inductive Effect where
  | Publish (topic : Topic) (priority : Priority) (arg : Arg)
  | RequestWebPage (u : String) (headers : List (String × String))
  | CheckRateLimit
  deriving DecidableEq, Repr

/-- How a call ends: it returns, it panics, or it is still running when the
iterations allowed to the model are used up. -/
inductive Status where
  | returned
  | panicked
  | running
  deriving DecidableEq, Repr

/-- The effects of a call and how it ends. -/
structure Outcome where
  trace : List Effect
  status : Status
  deriving DecidableEq, Repr

/-- The outcome `o` of the rest of a call, after the effects `pre`. -/
def Outcome.after (pre : List Effect) (o : Outcome) : Outcome :=
  { trace := pre ++ o.trace, status := o.status }

/-- The network: `web n u` is what the `n`-th call of `http.RequestWebPage`
of a request yields when asked for `u`: the page, or the text of the
error. -/
abbrev Web := Nat → String → Except String String

/-! ## The data source -/

/-- The fields of `GoogleCT`; `name` is the name given to the embedded
`BaseService`, returned by `g.String()`. -/
structure GoogleCT where
  SourceType : String
  baseURL : String
  tokenRE : Regex
  name : String
  deriving DecidableEq, Repr

/-- Go `g.String()` (the primed name keeps `String` free for the type). -/
def GoogleCT.String' (g : GoogleCT) : String := g.name

/-- Go `NewGoogleCT`; `cert` is the constant `requests.CERT`. -/
def NewGoogleCT (cert : String) : GoogleCT :=
  { SourceType := cert
    baseURL := "https://www.google.com/transparencyreport/api/v3/httpsreport/ct/certsearch"
    tokenRE := tokenPattern
    name := "GoogleCT" }

/-- Go `GoogleCT.getURL`. The error of `url.Parse` is dropped in the source,
so a base URL that does not parse leaves a nil `u` whose assignment panics:
`none`. -/
def GoogleCT.getURL (g : GoogleCT) (domain token : String) : Option String :=
  let dir := if token ≠ "" then "/page" else ""
  match Parse (g.baseURL ++ dir) with
  | none => none
  | some u =>
    let values : Values :=
      [("domain", [domain]), ("include_expired", ["true"]), ("include_subdomains", ["true"])]
    let values := if token ≠ "" then values.Add "p" token else values
    some (URL.String { u with RawQuery := values.Encode })

/-- The headers sent with every fetch. -/
def headers : List (String × String) :=
  [("Connection", "close"),
    ("Referer", "https://transparencyreport.google.com/https/certificates")]

/-- The heartbeat published at the top of every iteration. -/
def GoogleCT.active (g : GoogleCT) : Effect :=
  Effect.Publish Topic.SetActiveTopic Priority.PriorityCritical (Arg.text g.String')

/-- The log published when a fetch fails:
`fmt.Sprintf("%s: %s: %v", g.String(), u, err)`. -/
def GoogleCT.failure (g : GoogleCT) (u err : String) : Effect :=
  Effect.Publish Topic.LogTopic Priority.PriorityHigh
    (Arg.text (g.String' ++ ": " ++ u ++ ": " ++ err))

/-- The log published when a request starts:
`fmt.Sprintf("Querying %s for %s subdomains", g.String(), req.Domain)`. -/
def GoogleCT.querying (g : GoogleCT) (req : DNSRequest) : Effect :=
  Effect.Publish Topic.LogTopic Priority.PriorityHigh
    (Arg.text ("Querying " ++ g.String' ++ " for " ++ req.Domain ++ " subdomains"))

/-- The event published for one name found in a page. -/
def GoogleCT.newName (g : GoogleCT) (req : DNSRequest) (name : String) : Effect :=
  Effect.Publish Topic.NewNameTopic Priority.PriorityHigh
    (Arg.request
      { Name := name, Domain := req.Domain, Tag := g.SourceType, Source := g.String' })

/-- The inner `for` of `OnDNSRequest`: one event per element of
`re.FindAllString(page, -1)`, in order. -/
def GoogleCT.names (g : GoogleCT) (re : DomainRegexp) (req : DNSRequest) (page : String) :
    List Effect :=
  (re.FindAllString page).map (g.newName req)

/-- The continuation token taken from a page: `token = ""`, then
`token = match[2]` when `len(match) == 5 && match[3] != match[4]`. -/
def GoogleCT.nextToken (g : GoogleCT) (page : String) : String :=
  let m := g.tokenRE.FindStringSubmatch page
  if m.length = 5 ∧ m.getD 3 "" ≠ m.getD 4 "" then m.getD 2 "" else ""

/-- The `for` loop of `OnDNSRequest`, for at most `fuel` iterations; `n`
counts the fetches made so far and `token` is the loop variable. -/
def GoogleCT.loop (g : GoogleCT) (web : Web) (re : DomainRegexp) (req : DNSRequest) :
    Nat → Nat → String → Outcome
  | 0, _, _ => { trace := [], status := Status.running }
  | fuel + 1, n, token =>
    match g.getURL req.Domain token with
    | none => { trace := [g.active], status := Status.panicked }
    | some u =>
      match web n u with
      | Except.error err =>
        { trace := [g.active, Effect.RequestWebPage u headers, g.failure u err],
          status := Status.returned }
      | Except.ok page =>
        let token := g.nextToken page
        if token = "" then
          { trace := g.active :: Effect.RequestWebPage u headers :: g.names re req page,
            status := Status.returned }
        else
          (GoogleCT.loop g web re req fuel (n + 1) token).after
            (g.active :: Effect.RequestWebPage u headers :: g.names re req page
              ++ [Effect.CheckRateLimit])

/-- Go `GoogleCT.OnDNSRequest`, its loop running for at most `fuel`
iterations. -/
def GoogleCT.OnDNSRequest (g : GoogleCT) (web : Web) (fuel : Nat) (ctx : Context)
    (req : DNSRequest) : Outcome :=
  match ctx.config.assert with
  | none => { trace := [], status := Status.panicked }
  | some cfg =>
    match ctx.bus.assert with
    | none => { trace := [], status := Status.panicked }
    | some bus =>
      match cfg, bus with
      | some cfg, some _ =>
        match cfg.DomainRegex req.Domain with
        | none => { trace := [], status := Status.returned }
        | some re => (g.loop web re req fuel 0 "").after [g.querying req]
      | _, _ => { trace := [], status := Status.returned }

/-! ## Vocabulary of the statements -/

/-- The URL of a page as the interface describes it:
`<base>[/page]?domain=<d>&include_expired=true&include_subdomains=true[&p=<token>]`,
the bracketed parts present exactly when the token is not empty. -/
def pageURL (d t : String) : String :=
  "https://www.google.com/transparencyreport/api/v3/httpsreport/ct/certsearch"
    ++ (if t ≠ "" then "/page" else "")
    ++ "?domain=" ++ QueryEscape d ++ "&include_expired=true&include_subdomains=true"
    ++ (if t ≠ "" then "&p=" ++ QueryEscape t else "")

/-- The number that a string of decimal digits denotes. -/
def intValue (s : String) : Nat :=
  s.data.foldl (fun acc c => 10 * acc + (c.toNat - '0'.toNat)) 0

/-- The URLs fetched, in order. -/
def fetched (trace : List Effect) : List String :=
  trace.filterMap
    (fun e => match e with
      | Effect.RequestWebPage u _ => some u
      | _ => none)

/-- The requests published on the new-name topic, in order. -/
def hostnames (trace : List Effect) : List DNSRequest :=
  trace.filterMap
    (fun e => match e with
      | Effect.Publish Topic.NewNameTopic _ (Arg.request r) => some r
      | _ => none)

/-- The texts published on the log topic, in order. -/
def logs (trace : List Effect) : List String :=
  trace.filterMap
    (fun e => match e with
      | Effect.Publish Topic.LogTopic _ (Arg.text s) => some s
      | _ => none)

/-- The effects that come before the `k`-th page fetch, counted from 0; the
whole trace when it has no such fetch. -/
def beforeFetch : Nat → List Effect → List Effect
  | _, [] => []
  | k, Effect.RequestWebPage u h :: es =>
    match k with
    | 0 => []
    | k + 1 => Effect.RequestWebPage u h :: beforeFetch k es
  | k, e :: es => e :: beforeFetch k es

/-- Whether the unit blocks in the effect: a page fetch or a rate-limit
wait. -/
def isBlocking : Effect → Bool
  | Effect.RequestWebPage _ _ => true
  | Effect.CheckRateLimit => true
  | Effect.Publish _ _ _ => false

/-- The effects that come after the `k`-th blocking call, counted from 0. -/
def afterBlocking : Nat → List Effect → List Effect
  | _, [] => []
  | k, e :: es =>
    if isBlocking e then
      match k with
      | 0 => es
      | k + 1 => afterBlocking k es
    else afterBlocking k es

/-- The loop variable `token` after the pages `ps`, each of which leaves a
token, starting from `tok`. -/
def GoogleCT.lastToken (g : GoogleCT) : String → List String → String
  | tok, [] => tok
  | _, p :: ps => g.lastToken (g.nextToken p) ps

/-- The network serves the pages `ps` to the fetches `n`, `n + 1`, ... of a
loop that starts with the token `tok`, and each of them leaves a token for
the next fetch. -/
def Serves (g : GoogleCT) (web : Web) (d : String) : Nat → String → List String → Prop
  | _, _, [] => True
  | n, tok, p :: ps =>
    web n (pageURL d tok) = Except.ok p ∧ g.nextToken p ≠ ""
      ∧ Serves g web d (n + 1) (g.nextToken p) ps

/-- A fetch outcome that ends the loop: an error, or a page that leaves no
token. -/
def Terminal (g : GoogleCT) : Except String String → Prop
  | Except.error _ => True
  | Except.ok p => g.nextToken p = ""

/-- The names that a fetch outcome contributes: the matches of the pattern
in the page, none for an error. -/
def foundIn (re : DomainRegexp) : Except String String → List String
  | Except.error _ => []
  | Except.ok p => re.FindAllString p

/-- The effects expected of the iterations that fetch the pages `ps` and go
on: heartbeat, fetch, one event per name, rate-limit wait. -/
def GoogleCT.pagesTrace (g : GoogleCT) (re : DomainRegexp) (req : DNSRequest) :
    String → List String → List Effect
  | _, [] => []
  | tok, p :: ps =>
    g.active :: Effect.RequestWebPage (pageURL req.Domain tok) headers :: g.names re req p
      ++ Effect.CheckRateLimit :: GoogleCT.pagesTrace g re req (g.nextToken p) ps

/-- The effects expected of the last iteration: heartbeat, fetch, and the
failure log or the events of the names. -/
def GoogleCT.lastTrace (g : GoogleCT) (re : DomainRegexp) (req : DNSRequest) (tok : String) :
    Except String String → List Effect
  | Except.error err =>
    [g.active, Effect.RequestWebPage (pageURL req.Domain tok) headers,
      g.failure (pageURL req.Domain tok) err]
  | Except.ok p =>
    g.active :: Effect.RequestWebPage (pageURL req.Domain tok) headers :: g.names re req p

/-! ## Sample data -/

/-- The maximal runs of characters satisfying `p`, in order; `acc` is the
run being read. -/
def runsOf (p : Char → Bool) : List Char → List Char → List (List Char)
  | acc, [] => if acc = [] then [] else [acc]
  | acc, c :: cs =>
    if p c then runsOf p (acc ++ [c]) cs
    else (if acc = [] then [] else [acc]) ++ runsOf p [] cs

/-- A sample domain pattern for `example.com`: the runs of letters, digits,
dots and hyphens that end in `.example.com`. -/
def sampleRe : DomainRegexp :=
  { FindAllString := fun s =>
      ((runsOf (fun c => isAlnum c.toNat || c = '.' || c = '-') [] s.data).filter
        (fun w => ".example.com".data.isSuffixOf w)).map String.mk }

/-- A sample configuration: only `example.com` is in scope. -/
def sampleCfg : Config :=
  { DomainRegex := fun d => if d = "example.com" then some sampleRe else none }

/-- A sample context carrying the configuration and a bus, never
cancelled. -/
def sampleCtx : Context :=
  { config := CtxValue.ptr sampleCfg, bus := CtxValue.ptr EventBus.mk, cancelled := none }

/-- A sample request for `example.com`. -/
def sampleReq : DNSRequest :=
  { Name := "", Domain := "example.com", Tag := "", Source := "" }

/-- A first page: two names, and a continuation with counters 3 and 10. -/
def pageOne : String := "a.example.com b.example.com [null,\"abc\",null,3,10]"

/-- A second page: a name seen before, twice, and a new one, and a
continuation with counters 10 and 10. -/
def pageTwo : String :=
  "a.example.com,c.example.com,a.example.com [\"abc\",\"abd\",null,10,10]"

/-- A page without any continuation structure. -/
def pageBare : String := "d.example.com [null,\"xyz\",null,7"

/-- A page whose counters are written 05 and 5. -/
def pagePadded : String := "e.example.com [null,\"abc\",null,05,5]"

/-- A network that serves `pageOne`, then `pageTwo`, then fails. -/
def sampleWeb : Web := fun n _ =>
  match n with
  | 0 => Except.ok pageOne
  | 1 => Except.ok pageTwo
  | _ => Except.error "timeout"

/-- A network that serves `pageOne`, then fails. -/
def failingWeb : Web := fun n _ =>
  match n with
  | 0 => Except.ok pageOne
  | _ => Except.error "timeout"

/-- A network that serves `pagePadded`, then `pageBare`, then fails. -/
def paddedWeb : Web := fun n _ =>
  match n with
  | 0 => Except.ok pagePadded
  | 1 => Except.ok pageBare
  | _ => Except.error "timeout"

/-- The sample context, cancelled while the unit is blocked in its first
fetch. -/
def cancelledCtx : Context :=
  { config := CtxValue.ptr sampleCfg, bus := CtxValue.ptr EventBus.mk, cancelled := some 0 }

/-- A sample request for a domain that the sample configuration does not
cover. -/
def otherReq : DNSRequest :=
  { Name := "", Domain := "other.org", Tag := "", Source := "" }

/-- A context that carries no value at all, such as `context.Background()`. -/
def backgroundCtx : Context :=
  { config := CtxValue.absent, bus := CtxValue.absent, cancelled := none }

/-- A context that carries the sample configuration but no event bus. -/
def busLessCtx : Context :=
  { config := CtxValue.ptr sampleCfg, bus := CtxValue.absent, cancelled := none }

/-- For each page fetch of a trace, in order, the number of rate-limit
waits made since the fetch before it, or since the start for the first
fetch; `acc` is the number of waits seen since then. -/
def waitsBefore : Nat → List Effect → List Nat
  | _, [] => []
  | acc, Effect.RequestWebPage _ _ :: es => acc :: waitsBefore 0 es
  | acc, Effect.CheckRateLimit :: es => waitsBefore (acc + 1) es
  | acc, Effect.Publish _ _ _ :: es => waitsBefore acc es

/-- The texts published on the set-active topic, in order. -/
def heartbeats (trace : List Effect) : List String :=
  trace.filterMap
    (fun e => match e with
      | Effect.Publish Topic.SetActiveTopic _ (Arg.text s) => some s
      | _ => none)

/-- For each page fetch of a trace, in order, the effect that comes
immediately before it (`none` for a fetch that opens the trace); `prev` is
the effect before the head of the list. -/
def beforeEachFetch : Option Effect → List Effect → List (Option Effect)
  | _, [] => []
  | prev, Effect.RequestWebPage u h :: es =>
    prev :: beforeEachFetch (some (Effect.RequestWebPage u h)) es
  | _, Effect.CheckRateLimit :: es => beforeEachFetch (some Effect.CheckRateLimit) es
  | _, Effect.Publish t p a :: es => beforeEachFetch (some (Effect.Publish t p a)) es

/-! ## `net/url`: reading a query back -/

/-- The bytes of a Go string: the UTF-8 bytes of the text. -/
def bytesOf (s : String) : List Nat :=
  s.data.flatMap utf8Bytes

/-- Go `ishex`. -/
def ishex (c : Char) : Bool :=
  (48 ≤ c.toNat && c.toNat ≤ 57) || (97 ≤ c.toNat && c.toNat ≤ 102)
    || (65 ≤ c.toNat && c.toNat ≤ 70)

/-- Go `unhex`. -/
def unhex (c : Char) : Nat :=
  if 48 ≤ c.toNat ∧ c.toNat ≤ 57 then c.toNat - 48
  else if 97 ≤ c.toNat ∧ c.toNat ≤ 102 then c.toNat - 97 + 10
  else if 65 ≤ c.toNat ∧ c.toNat ≤ 70 then c.toNat - 65 + 10
  else 0

/-- Go `unescape(s, encodeQueryComponent)`, giving the bytes of the result:
`%XX` is the byte `unhex(X)<<4 | unhex(X)`, `+` is a space, any other
character stands for itself; `none` is the `EscapeError` for a `%` that is
not followed by two hexadecimal digits. -/
def unescapeChars : List Char → Option (List Nat)
  | [] => some []
  | c :: rest =>
    if c = '%' then
      match rest with
      | a :: b :: more =>
        if ishex a ∧ ishex b then
          (unescapeChars more).map (fun bs => (unhex a * 16 + unhex b) :: bs)
        else none
      | _ => none
    else if c = '+' then (unescapeChars rest).map (fun bs => 32 :: bs)
    else (unescapeChars rest).map (fun bs => utf8Bytes c ++ bs)

/-- Go `url.QueryUnescape`, giving the bytes of the result. -/
def QueryUnescape (s : String) : Option (List Nat) :=
  unescapeChars s.data

/-- Go `strings.Cut(s, sep)` for a separator of one character: the text
before the first `sep` and the text after it; all of `s` and nothing when
`sep` does not occur. -/
def cut (sep : Char) (s : List Char) : List Char × List Char :=
  (s.takeWhile (fun c => c ≠ sep), (s.dropWhile (fun c => c ≠ sep)).drop 1)

/-- The pieces of a text between the occurrences of `sep`; `acc` is the
piece being read. -/
def splitOn (sep : Char) : List Char → List Char → List (List Char)
  | acc, [] => [acc]
  | acc, c :: cs => if c = sep then acc :: splitOn sep [] cs else splitOn sep (acc ++ [c]) cs

/-- The result of `url.ParseQuery`: a map from the bytes of a key to the
bytes of each of its values, kept as an association list in the order in
which the keys first occur. -/
abbrev ByteValues := List (List Nat × List (List Nat))

/-- The assignment `m[key] = append(m[key], value)`. -/
def ByteValues.add : ByteValues → List Nat → List Nat → ByteValues
  | [], key, value => [(key, [value])]
  | (k, vs) :: rest, key, value =>
    if k = key then (k, vs ++ [value]) :: rest
    else (k, vs) :: ByteValues.add rest key value

/-- The loop of Go `parseQuery` over the pieces of the query between `&`:
a piece with a `;` is an error, an empty piece is skipped, any other is cut
at its first `=` into a key and a value, both unescaped; `err` tells whether
an error has been met. -/
def parseSegments : ByteValues → Bool → List (List Char) → ByteValues × Bool
  | m, err, [] => (m, err)
  | m, err, seg :: segs =>
    if seg.contains ';' then parseSegments m true segs
    else if seg = [] then parseSegments m err segs
    else
      match unescapeChars (cut '=' seg).1, unescapeChars (cut '=' seg).2 with
      | some key, some value => parseSegments (m.add key value) err segs
      | _, _ => parseSegments m true segs

/-- Go `url.ParseQuery`: the values, and whether an error is returned. -/
def ParseQuery (query : String) : ByteValues × Bool :=
  parseSegments [] false (splitOn '&' [] query.data)

/-- The query string of a URL, as `url.Parse` finds it (`RawQuery`): with
what follows the first `#` set aside, the text after the first `?`. -/
def rawQueryOf (u : String) : String :=
  ⟨(cut '?' (cut '#' u.data).1).2⟩

/-- The characters that `escape` can write for a query component: letters,
digits, `- _ . ~`, `%` and `+`. -/
def escapedChar (c : Char) : Bool :=
  isAlnum c.toNat || isMark c.toNat || c = '%' || c = '+'

/-! ## Vocabulary for the token pattern -/

/-- The group numbers that occur in an expression. -/
def Regex.groups : Regex → List Nat
  | Regex.empty => []
  | Regex.lit _ => []
  | Regex.cls _ => []
  | Regex.cat a b => a.groups ++ b.groups
  | Regex.alt a b => a.groups ++ b.groups
  | Regex.plus a => a.groups
  | Regex.cap i a => i :: a.groups

/-- A text made of ASCII letters and digits only. -/
def alnumText (s : String) : Prop :=
  s.data.all (fun c => isAlnum c.toNat) = true

/-- A text made of decimal digits only. -/
def digitText (s : String) : Prop :=
  s.data.all (fun c => 48 ≤ c.toNat && c.toNat ≤ 57) = true

/-- The text of a continuation structure with first element `g1`, token
`t` and counters `a` and `b`: `[g1,"t",null,a,b]`. -/
def occurrence (g1 t a b : String) : String :=
  "[" ++ g1 ++ ",\"" ++ t ++ "\",null," ++ a ++ "," ++ b ++ "]"

/-- The parts of a continuation structure are well formed: the first
element is `null` or a quoted non-empty alphanumeric text, the token is a
non-empty alphanumeric text, the counters are non-empty digit strings. -/
def WellFormed (g1 t a b : String) : Prop :=
  (g1 = "null" ∨ ∃ q : String, q ≠ "" ∧ alnumText q ∧ g1 = "\"" ++ q ++ "\"")
    ∧ t ≠ "" ∧ alnumText t ∧ a ≠ "" ∧ digitText a ∧ b ≠ "" ∧ digitText b

/-- A page with two continuation structures: the first with counters 7 and
7, the second with counters 3 and 10. -/
def pageStopFirst : String :=
  "x[y " ++ occurrence "null" "first" "7" "7" ++ (" " ++ occurrence "null" "second" "3" "10")

/-- A page with two continuation structures: the first with counters 3 and
10, the second with counters 7 and 7. -/
def pageGoFirst : String :=
  "x[y " ++ occurrence "\"q1\"" "first" "3" "10" ++ (" " ++ occurrence "null" "second" "7" "7")

/-- A network that serves `pageStopFirst` to every fetch. -/
def stopFirstWeb : Web := fun _ _ => Except.ok pageStopFirst

/-- A network that serves `pageGoFirst`, then fails. -/
def goFirstWeb : Web := fun n _ =>
  match n with
  | 0 => Except.ok pageGoFirst
  | _ => Except.error "timeout"

/-- One match leads to another: the second consumes a part of the input
left by the first, keeps the number of captures and, when `keep` holds,
the capture of group `j`. -/
def Follows (j : Nat) (keep : Bool) (st r : MState) : Prop :=
  (∃ w, st.1 = w ++ r.1) ∧ r.2.length = st.2.length
    ∧ (keep = true → r.2.getD j [] = st.2.getD j [])

/-! ## The order of the effects of a call -/

/-- Where a call stands between two of its effects: nothing done yet; the
start log published; the heartbeat of an iteration published; its page
fetched; names of the page being published; the failure of the fetch
logged; the rate limiter consulted after an iteration. -/
inductive Phase where
  | begun
  | idle
  | active
  | fetched
  | naming
  | failed
  | waited
  deriving DecidableEq, Repr

/-- The effect that may come next in a phase, and the phase it leads to;
`none` for an effect out of order. A heartbeat opens an iteration, at the
start or after a rate-limit wait; the fetch follows the heartbeat; after
the fetch come the failure log, or names and then possibly the rate-limit
wait; nothing but a heartbeat follows a wait, and nothing follows a
failure log. -/
def Phase.next : Phase → Effect → Option Phase
  | Phase.begun, Effect.Publish Topic.LogTopic _ _ => some Phase.idle
  | Phase.idle, Effect.Publish Topic.SetActiveTopic _ _ => some Phase.active
  | Phase.waited, Effect.Publish Topic.SetActiveTopic _ _ => some Phase.active
  | Phase.active, Effect.RequestWebPage _ _ => some Phase.fetched
  | Phase.fetched, Effect.Publish Topic.LogTopic _ _ => some Phase.failed
  | Phase.fetched, Effect.Publish Topic.NewNameTopic _ _ => some Phase.naming
  | Phase.fetched, Effect.CheckRateLimit => some Phase.waited
  | Phase.naming, Effect.Publish Topic.NewNameTopic _ _ => some Phase.naming
  | Phase.naming, Effect.CheckRateLimit => some Phase.waited
  | _, _ => none

/-- The phase reached from `p` by a list of effects; `none` when one of
them is out of order. -/
def Phase.run : Phase → List Effect → Option Phase
  | p, [] => some p
  | p, e :: es =>
    match p.next e with
    | some q => Phase.run q es
    | none => none

/-- A trace in which the rate limiter is consulted between the fetch and
the names of a page: out of order. -/
def misplacedWait : List Effect :=
  [(NewGoogleCT "cert").querying sampleReq, (NewGoogleCT "cert").active,
    Effect.RequestWebPage (pageURL "example.com" "") headers, Effect.CheckRateLimit,
    (NewGoogleCT "cert").newName sampleReq "a.example.com", (NewGoogleCT "cert").active,
    Effect.RequestWebPage (pageURL "example.com" "abc") headers]

end Amass

open Amass

theorem Amass.Parse_first :
    Parse ("https://www.google.com/transparencyreport/api/v3/httpsreport/ct/certsearch" ++ "") =
      some { Scheme := "https", Host := "www.google.com",
             Path := "/transparencyreport/api/v3/httpsreport/ct/certsearch", RawQuery := "" } := by
  decide

theorem Amass.Parse_next :
    Parse ("https://www.google.com/transparencyreport/api/v3/httpsreport/ct/certsearch" ++ "/page") =
      some { Scheme := "https", Host := "www.google.com",
             Path := "/transparencyreport/api/v3/httpsreport/ct/certsearch/page", RawQuery := "" } := by
  decide

theorem Amass.encode_first (d : String) :
    Values.Encode
        [("domain", [d]), ("include_expired", ["true"]), ("include_subdomains", ["true"])] =
      "domain=" ++ QueryEscape d ++ "&include_expired=true&include_subdomains=true" := by
  have h1 : (QueryEscape "domain").data = "domain".data := by decide
  have h2 : (QueryEscape "include_expired").data = "include_expired".data := by decide
  have h3 : (QueryEscape "include_subdomains").data = "include_subdomains".data := by decide
  have h4 : (QueryEscape "true").data = "true".data := by decide
  apply String.ext
  simp [Values.Encode, sortKeys, insertKey, lessChars, encodeKeys, encodeKey, Values.lookup,
    h1, h2, h3, h4]

theorem Amass.encode_next (d t : String) :
    Values.Encode
        (Values.Add
          [("domain", [d]), ("include_expired", ["true"]), ("include_subdomains", ["true"])]
          "p" t) =
      "domain=" ++ QueryEscape d ++ "&include_expired=true&include_subdomains=true"
        ++ "&p=" ++ QueryEscape t := by
  have h1 : (QueryEscape "domain").data = "domain".data := by decide
  have h2 : (QueryEscape "include_expired").data = "include_expired".data := by decide
  have h3 : (QueryEscape "include_subdomains").data = "include_subdomains".data := by decide
  have h4 : (QueryEscape "true").data = "true".data := by decide
  have h5 : (QueryEscape "p").data = "p".data := by decide
  apply String.ext
  simp [Values.Encode, Values.Add, sortKeys, insertKey, lessChars, encodeKeys, encodeKey,
    Values.lookup, h1, h2, h3, h4, h5]

theorem Amass.String_query (host path q : String) (hq : q ≠ "")
    (hh : escape host encoding.encodeHost = host) (hp : escape path encoding.encodePath = path)
    (hh0 : host ≠ "") (hp0 : path.data.head? = some '/') :
    URL.String { Scheme := "https", Host := host, Path := path, RawQuery := q } =
      "https://" ++ host ++ path ++ "?" ++ q := by
  simp [URL.String, hq, hh, hp, hh0, hp0]
  apply String.ext
  simp

theorem Amass.domain_query_ne (x y : String) : "domain=" ++ x ++ y ≠ "" := by
  intro h
  have h2 := congrArg String.data h
  simp at h2

theorem Amass.getURL_eq_pageURL (cert d t : String) :
    (NewGoogleCT cert).getURL d t = some (pageURL d t) := by
  have hh : escape "www.google.com" encoding.encodeHost = "www.google.com" := by decide
  have hp1 : escape "/transparencyreport/api/v3/httpsreport/ct/certsearch" encoding.encodePath
      = "/transparencyreport/api/v3/httpsreport/ct/certsearch" := by decide
  have hp2 : escape "/transparencyreport/api/v3/httpsreport/ct/certsearch/page"
      encoding.encodePath = "/transparencyreport/api/v3/httpsreport/ct/certsearch/page" := by
    decide
  by_cases ht : t = ""
  · subst ht
    simp only [GoogleCT.getURL, NewGoogleCT, pageURL]
    simp only [ne_eq, not_true_eq_false, ↓reduceIte]
    rw [Parse_first, encode_first]
    simp only []
    rw [String_query _ _ _ (domain_query_ne _ _) hh hp1 (by decide) (by decide)]
    congr 1
    apply String.ext
    simp
  · simp only [GoogleCT.getURL, NewGoogleCT, pageURL]
    simp only [ne_eq, ht, not_false_eq_true, ↓reduceIte]
    rw [Parse_next, encode_next]
    simp only []
    have hq : "domain=" ++ QueryEscape d ++ "&include_expired=true&include_subdomains=true"
        ++ "&p=" ++ QueryEscape t ≠ "" := by
      intro h
      have h2 := congrArg String.data h
      simp at h2
    rw [String_query _ _ _ hq hh hp2 (by decide) (by decide)]
    congr 1
    apply String.ext
    simp

/-! ## The loop -/

theorem Amass.loop_succ_error (cert : String) (web : Web) (re : DomainRegexp) (req : DNSRequest)
    (fuel n : Nat) (tok err : String)
    (h : web n (pageURL req.Domain tok) = Except.error err) :
    (NewGoogleCT cert).loop web re req (fuel + 1) n tok =
      { trace := (NewGoogleCT cert).lastTrace re req tok (Except.error err),
        status := Status.returned } := by
  simp only [GoogleCT.loop, getURL_eq_pageURL, h, GoogleCT.lastTrace]

theorem Amass.loop_succ_stop (cert : String) (web : Web) (re : DomainRegexp) (req : DNSRequest)
    (fuel n : Nat) (tok page : String)
    (h : web n (pageURL req.Domain tok) = Except.ok page)
    (hstop : (NewGoogleCT cert).nextToken page = "") :
    (NewGoogleCT cert).loop web re req (fuel + 1) n tok =
      { trace := (NewGoogleCT cert).lastTrace re req tok (Except.ok page),
        status := Status.returned } := by
  simp only [GoogleCT.loop, getURL_eq_pageURL, h, GoogleCT.lastTrace, hstop, ↓reduceIte]

theorem Amass.loop_succ_continue (cert : String) (web : Web) (re : DomainRegexp)
    (req : DNSRequest) (fuel n : Nat) (tok page : String)
    (h : web n (pageURL req.Domain tok) = Except.ok page)
    (hgo : (NewGoogleCT cert).nextToken page ≠ "") :
    (NewGoogleCT cert).loop web re req (fuel + 1) n tok =
      ((NewGoogleCT cert).loop web re req fuel (n + 1) ((NewGoogleCT cert).nextToken page)).after
        ((NewGoogleCT cert).active :: Effect.RequestWebPage (pageURL req.Domain tok) headers
          :: (NewGoogleCT cert).names re req page ++ [Effect.CheckRateLimit]) := by
  simp only [GoogleCT.loop, getURL_eq_pageURL, h, hgo, ↓reduceIte]

theorem Amass.loop_terminal (cert : String) (web : Web) (re : DomainRegexp) (req : DNSRequest)
    (fuel n : Nat) (tok : String) (last : Except String String)
    (h : web n (pageURL req.Domain tok) = last) (hlast : Terminal (NewGoogleCT cert) last) :
    (NewGoogleCT cert).loop web re req (fuel + 1) n tok =
      { trace := (NewGoogleCT cert).lastTrace re req tok last, status := Status.returned } := by
  cases last with
  | error err => exact loop_succ_error cert web re req fuel n tok err h
  | ok page => exact loop_succ_stop cert web re req fuel n tok page h hlast

theorem Amass.loop_run (cert : String) (web : Web) (re : DomainRegexp) (req : DNSRequest)
    (ps : List String) :
    ∀ (fuel n : Nat) (tok : String) (last : Except String String),
      Serves (NewGoogleCT cert) web req.Domain n tok ps →
      web (n + ps.length) (pageURL req.Domain ((NewGoogleCT cert).lastToken tok ps)) = last →
      Terminal (NewGoogleCT cert) last →
      ps.length < fuel →
      (NewGoogleCT cert).loop web re req fuel n tok =
        { trace := (NewGoogleCT cert).pagesTrace re req tok ps
            ++ (NewGoogleCT cert).lastTrace re req ((NewGoogleCT cert).lastToken tok ps) last,
          status := Status.returned } := by
  induction ps with
  | nil =>
    intro fuel n tok last _ hlast hterm hfuel
    obtain ⟨f, rfl⟩ : ∃ f, fuel = f + 1 := ⟨fuel - 1, by simp at hfuel; omega⟩
    simpa [GoogleCT.pagesTrace, GoogleCT.lastToken] using
      loop_terminal cert web re req f n tok last (by simpa using hlast) hterm
  | cons p ps ih =>
    intro fuel n tok last hs hlast hterm hfuel
    obtain ⟨f, rfl⟩ : ∃ f, fuel = f + 1 := ⟨fuel - 1, by simp at hfuel; omega⟩
    obtain ⟨hp, hgo, hrest⟩ := hs
    rw [loop_succ_continue cert web re req f n tok p hp hgo]
    rw [ih f (n + 1) _ last hrest (by
      simpa [GoogleCT.lastToken, Nat.add_assoc, Nat.add_comm 1] using hlast) hterm
      (by simp at hfuel; omega)]
    simp [Outcome.after, GoogleCT.pagesTrace, GoogleCT.lastToken]

theorem Amass.escapeChars_alnum (cs : List Char) (h : cs.all (fun c => isAlnum c.toNat) = true) :
    escapeChars encoding.encodeQueryComponent cs = cs := by
  induction cs with
  | nil => rfl
  | cons c cs ih =>
    simp only [List.all_cons, Bool.and_eq_true] at h
    have hc := h.1
    have hlt : c.toNat < 128 := by
      simp only [isAlnum, Bool.or_eq_true, Bool.and_eq_true, decide_eq_true_eq] at hc
      omega
    have hb : utf8Bytes c = [c.toNat] := by simp [utf8Bytes, hlt]
    have he : escapeByte encoding.encodeQueryComponent c.toNat = [c] := by
      simp [escapeByte, shouldEscape, hc, Char.ofNat_toNat]
    have ih2 := ih h.2
    simp only [escapeChars] at ih2 ⊢
    simp [List.flatMap_cons, hb, he, ih2]

theorem Amass.QueryEscape_alnum (t : String) (h : t.data.all (fun c => isAlnum c.toNat) = true) :
    QueryEscape t = t := by
  apply String.ext
  simp only [QueryEscape, escape]
  exact escapeChars_alnum t.data h

theorem Amass.loop_head (cert : String) (web : Web) (re : DomainRegexp) (req : DNSRequest)
    (fuel n : Nat) (tok : String) :
    ∃ rest, ((NewGoogleCT cert).loop web re req (fuel + 1) n tok).trace =
      (NewGoogleCT cert).active :: Effect.RequestWebPage (pageURL req.Domain tok) headers
        :: rest := by
  cases h : web n (pageURL req.Domain tok) with
  | error err =>
    rw [loop_succ_error cert web re req fuel n tok err h]
    exact ⟨_, rfl⟩
  | ok page =>
    by_cases hstop : (NewGoogleCT cert).nextToken page = ""
    · rw [loop_succ_stop cert web re req fuel n tok page h hstop]
      exact ⟨_, rfl⟩
    · rw [loop_succ_continue cert web re req fuel n tok page h hstop]
      exact ⟨_, by simp [Outcome.after]; rfl⟩

theorem Amass.nextToken_of_match (cert page w g1 t a b : String)
    (hm : (NewGoogleCT cert).tokenRE.FindStringSubmatch page = [w, g1, t, a, b]) :
    (NewGoogleCT cert).nextToken page = if a ≠ b then t else "" := by
  simp [GoogleCT.nextToken, hm]

theorem Amass.fetched_names (g : GoogleCT) (re : DomainRegexp) (req : DNSRequest)
    (page : String) : fetched (g.names re req page) = [] := by
  simp [fetched, GoogleCT.names, GoogleCT.newName]

theorem Amass.logs_names (g : GoogleCT) (re : DomainRegexp) (req : DNSRequest)
    (page : String) : logs (g.names re req page) = [] := by
  simp [logs, GoogleCT.names, GoogleCT.newName]

theorem Amass.hostnames_names (g : GoogleCT) (re : DomainRegexp) (req : DNSRequest)
    (page : String) :
    hostnames (g.names re req page) =
      (re.FindAllString page).map (fun name =>
        { Name := name, Domain := req.Domain, Tag := g.SourceType, Source := g.String' }) := by
  simp only [hostnames, GoogleCT.names]
  induction re.FindAllString page with
  | nil => rfl
  | cons x xs ih => simp [GoogleCT.newName, ih]

theorem Amass.pageURL_example_first :
    pageURL "example.com" "" =
      "https://www.google.com/transparencyreport/api/v3/httpsreport/ct/certsearch"
        ++ "?domain=example.com&include_expired=true&include_subdomains=true" := by
  rfl

theorem Amass.pageURL_example_next :
    pageURL "example.com" "abc123" =
      "https://www.google.com/transparencyreport/api/v3/httpsreport/ct/certsearch/page"
        ++ "?domain=example.com&include_expired=true&include_subdomains=true&p=abc123" := by
  rfl

/-! ## The claims -/

/-- C1: for every domain `d` and token `t`, `getURL d t` is the base URL, then
`/page` exactly when `t` is not empty, then
`?domain=<d>&include_expired=true&include_subdomains=true` with `d`
query-escaped, then `&p=<t>` with `t` query-escaped exactly when `t` is not
empty; for `example.com` without a token it is the first-page URL without
`p`, and with the token `abc123` the next-page URL with `p=abc123`. -/
theorem Amass.getURL_shape (cert d t : String) :
    (NewGoogleCT cert).getURL d t =
        some ((NewGoogleCT cert).baseURL ++ (if t ≠ "" then "/page" else "")
          ++ "?domain=" ++ QueryEscape d ++ "&include_expired=true&include_subdomains=true"
          ++ (if t ≠ "" then "&p=" ++ QueryEscape t else ""))
      ∧ (NewGoogleCT cert).getURL "example.com" "" =
        some ("https://www.google.com/transparencyreport/api/v3/httpsreport/ct/certsearch"
          ++ "?domain=example.com&include_expired=true&include_subdomains=true")
      ∧ (NewGoogleCT cert).getURL "example.com" "abc123" =
        some ("https://www.google.com/transparencyreport/api/v3/httpsreport/ct/certsearch/page"
          ++ "?domain=example.com&include_expired=true&include_subdomains=true&p=abc123") := by
  refine ⟨getURL_eq_pageURL cert d t, ?_, ?_⟩
  · rw [getURL_eq_pageURL, pageURL_example_first]
  · rw [getURL_eq_pageURL, pageURL_example_next]

/-- C2, as stated, fails: in `pagePadded` the token scan finds the
continuation structure with the counters `05` and `5`, which are equal as
integers, and the token `abc` is kept: the run fetches a second page, with
`p=abc`. -/
theorem Amass.equal_integers_counterexample :
    (NewGoogleCT "cert").tokenRE.FindStringSubmatch pagePadded =
        ["[null,\"abc\",null,05,5]", "null", "abc", "05", "5"]
      ∧ intValue "05" = intValue "5"
      ∧ (NewGoogleCT "cert").nextToken pagePadded = "abc"
      ∧ fetched ((NewGoogleCT "cert").OnDNSRequest paddedWeb 3 sampleCtx sampleReq).trace =
        [pageURL "example.com" "", pageURL "example.com" "abc"] := by
  decide

/-- C2 (amended): when a page is fetched in which the token scan finds the
continuation structure and its two counters are the same digit string, the
token is discarded and the loop stops after this page: the call returns
after the events of the page, and its only fetch is the fetch of this
page, whatever token string was captured. -/
theorem Amass.equal_counters_stop (cert : String) (web : Web) (re : DomainRegexp)
    (req : DNSRequest) (fuel n : Nat) (tok page w g1 t a b : String)
    (hweb : web n (pageURL req.Domain tok) = Except.ok page)
    (hm : (NewGoogleCT cert).tokenRE.FindStringSubmatch page = [w, g1, t, a, b])
    (heq : a = b) :
    (NewGoogleCT cert).nextToken page = ""
      ∧ (NewGoogleCT cert).loop web re req (fuel + 1) n tok =
        { trace := (NewGoogleCT cert).active
            :: Effect.RequestWebPage (pageURL req.Domain tok) headers
            :: (NewGoogleCT cert).names re req page,
          status := Status.returned }
      ∧ fetched ((NewGoogleCT cert).loop web re req (fuel + 1) n tok).trace =
        [pageURL req.Domain tok] := by
  have hstop : (NewGoogleCT cert).nextToken page = "" := by
    rw [nextToken_of_match cert page w g1 t a b hm]
    simp [heq]
  have hloop := loop_succ_stop cert web re req fuel n tok page hweb hstop
  refine ⟨hstop, hloop, ?_⟩
  rw [hloop]
  have hn := fetched_names (NewGoogleCT cert) re req page
  simp only [fetched] at hn ⊢
  simp [GoogleCT.lastTrace, GoogleCT.active, hn]

/-- Witness of C2 (amended): `pageTwo`, with counters `10` and `10`, served
to the second fetch. -/
theorem Amass.equal_counters_stop_witness :
    (NewGoogleCT "cert").nextToken pageTwo = ""
      ∧ (NewGoogleCT "cert").loop sampleWeb sampleRe sampleReq (0 + 1) 1 "abc" =
        { trace := (NewGoogleCT "cert").active
            :: Effect.RequestWebPage (pageURL sampleReq.Domain "abc") headers
            :: (NewGoogleCT "cert").names sampleRe sampleReq pageTwo,
          status := Status.returned }
      ∧ fetched ((NewGoogleCT "cert").loop sampleWeb sampleRe sampleReq (0 + 1) 1 "abc").trace =
        [pageURL sampleReq.Domain "abc"] :=
  equal_counters_stop "cert" sampleWeb sampleRe sampleReq 0 1 "abc" pageTwo
    "[\"abc\",\"abd\",null,10,10]" "\"abc\"" "abd" "10" "10" rfl (by decide) rfl

/-- C3: when a page is fetched in which the token scan finds the continuation
structure with a well-formed token `t` and two counters that differ as
integers, the loop goes on: after the events of the page and the rate-limit
wait it publishes the heartbeat and fetches again, and the URL of that fetch
is `getURL domain t`, the next-page path carrying `p=t`. -/
theorem Amass.differing_counters_continue (cert : String) (web : Web) (re : DomainRegexp)
    (req : DNSRequest) (fuel n : Nat) (tok page w g1 t a b : String)
    (hweb : web n (pageURL req.Domain tok) = Except.ok page)
    (hm : (NewGoogleCT cert).tokenRE.FindStringSubmatch page = [w, g1, t, a, b])
    (ht : t ≠ "" ∧ t.data.all (fun c => isAlnum c.toNat) = true)
    (hab : intValue a ≠ intValue b) :
    (NewGoogleCT cert).getURL req.Domain t =
        some ("https://www.google.com/transparencyreport/api/v3/httpsreport/ct/certsearch"
          ++ "/page" ++ "?domain=" ++ QueryEscape req.Domain
          ++ "&include_expired=true&include_subdomains=true" ++ ("&p=" ++ t))
      ∧ ∃ u rest, (NewGoogleCT cert).getURL req.Domain t = some u
        ∧ ((NewGoogleCT cert).loop web re req (fuel + 2) n tok).trace =
          (NewGoogleCT cert).active :: Effect.RequestWebPage (pageURL req.Domain tok) headers
            :: (NewGoogleCT cert).names re req page
            ++ Effect.CheckRateLimit :: (NewGoogleCT cert).active
            :: Effect.RequestWebPage u headers :: rest := by
  have hne : a ≠ b := fun h => hab (by rw [h])
  have hnext : (NewGoogleCT cert).nextToken page = t := by
    rw [nextToken_of_match cert page w g1 t a b hm]
    simp [hne]
  have hgo : (NewGoogleCT cert).nextToken page ≠ "" := by
    rw [hnext]
    exact ht.1
  constructor
  · rw [getURL_eq_pageURL]
    simp only [pageURL, ne_eq, ht.1, not_false_eq_true, ↓reduceIte, QueryEscape_alnum t ht.2]
  · obtain ⟨rest, hrest⟩ := loop_head cert web re req fuel (n + 1) t
    refine ⟨pageURL req.Domain t, rest, getURL_eq_pageURL cert req.Domain t, ?_⟩
    rw [loop_succ_continue cert web re req (fuel + 1) n tok page hweb hgo, hnext]
    simp [Outcome.after, hrest]

/-- Witness of C3: `pageOne`, with the token `abc` and the counters 3 and 10,
served to the first fetch. -/
theorem Amass.differing_counters_continue_witness :
    (NewGoogleCT "cert").getURL sampleReq.Domain "abc" =
        some ("https://www.google.com/transparencyreport/api/v3/httpsreport/ct/certsearch"
          ++ "/page" ++ "?domain=" ++ QueryEscape sampleReq.Domain
          ++ "&include_expired=true&include_subdomains=true" ++ ("&p=" ++ "abc"))
      ∧ ∃ u rest, (NewGoogleCT "cert").getURL sampleReq.Domain "abc" = some u
        ∧ ((NewGoogleCT "cert").loop sampleWeb sampleRe sampleReq (0 + 2) 0 "").trace =
          (NewGoogleCT "cert").active
            :: Effect.RequestWebPage (pageURL sampleReq.Domain "") headers
            :: (NewGoogleCT "cert").names sampleRe sampleReq pageOne
            ++ Effect.CheckRateLimit :: (NewGoogleCT "cert").active
            :: Effect.RequestWebPage u headers :: rest :=
  differing_counters_continue "cert" sampleWeb sampleRe sampleReq 0 0 "" pageOne
    "[null,\"abc\",null,3,10]" "null" "abc" "3" "10" rfl (by decide) (by decide) (by decide)

/-- C4: when a page is fetched in which the token pattern does not match at
all, the loop stops after this page, whatever token the loop variable held
before: the call returns after the events of the page, its only fetch is the
fetch of this page, and it publishes nothing on the log topic. -/
theorem Amass.no_match_stops (cert : String) (web : Web) (re : DomainRegexp)
    (req : DNSRequest) (fuel n : Nat) (tok page : String)
    (hweb : web n (pageURL req.Domain tok) = Except.ok page)
    (hm : (NewGoogleCT cert).tokenRE.FindStringSubmatch page = []) :
    (NewGoogleCT cert).loop web re req (fuel + 1) n tok =
        { trace := (NewGoogleCT cert).active
            :: Effect.RequestWebPage (pageURL req.Domain tok) headers
            :: (NewGoogleCT cert).names re req page,
          status := Status.returned }
      ∧ fetched ((NewGoogleCT cert).loop web re req (fuel + 1) n tok).trace =
        [pageURL req.Domain tok]
      ∧ logs ((NewGoogleCT cert).loop web re req (fuel + 1) n tok).trace = [] := by
  have hstop : (NewGoogleCT cert).nextToken page = "" := by
    simp [GoogleCT.nextToken, hm]
  have hloop := loop_succ_stop cert web re req fuel n tok page hweb hstop
  refine ⟨hloop, ?_, ?_⟩
  · rw [hloop]
    have hn := fetched_names (NewGoogleCT cert) re req page
    simp only [fetched] at hn ⊢
    simp [GoogleCT.lastTrace, GoogleCT.active, hn]
  · rw [hloop]
    have hn := logs_names (NewGoogleCT cert) re req page
    simp only [logs] at hn ⊢
    simp [GoogleCT.lastTrace, GoogleCT.active, hn]

/-- Witness of C4: `pageBare`, which has no continuation structure, served to
the second fetch of a run whose first page supplied the token `abc`. -/
theorem Amass.no_match_stops_witness :
    (NewGoogleCT "cert").loop paddedWeb sampleRe sampleReq (0 + 1) 1 "abc" =
        { trace := (NewGoogleCT "cert").active
            :: Effect.RequestWebPage (pageURL sampleReq.Domain "abc") headers
            :: (NewGoogleCT "cert").names sampleRe sampleReq pageBare,
          status := Status.returned }
      ∧ fetched ((NewGoogleCT "cert").loop paddedWeb sampleRe sampleReq (0 + 1) 1 "abc").trace =
        [pageURL sampleReq.Domain "abc"]
      ∧ logs ((NewGoogleCT "cert").loop paddedWeb sampleRe sampleReq (0 + 1) 1 "abc").trace = [] :=
  no_match_stops "cert" paddedWeb sampleRe sampleReq 0 1 "abc" pageBare rfl (by decide)

/-- C5: when a page is fetched, what follows the fetch in the trace is one
event per element of `re.FindAllString page`, in that order and with
repetitions kept (none when there is no match), each on the new-name topic and
carrying the matched text as name, the domain of the request, the source type
of the unit as tag and its label as source; after these events the call ends
or waits for the rate limiter. -/
theorem Amass.names_of_page (cert : String) (web : Web) (re : DomainRegexp)
    (req : DNSRequest) (fuel n : Nat) (tok page : String)
    (hweb : web n (pageURL req.Domain tok) = Except.ok page) :
    ∃ rest, ((NewGoogleCT cert).loop web re req (fuel + 1) n tok).trace =
        (NewGoogleCT cert).active :: Effect.RequestWebPage (pageURL req.Domain tok) headers
          :: (re.FindAllString page).map (fun name =>
              Effect.Publish Topic.NewNameTopic Priority.PriorityHigh
                (Arg.request
                  { Name := name, Domain := req.Domain,
                    Tag := (NewGoogleCT cert).SourceType,
                    Source := (NewGoogleCT cert).String' }))
          ++ rest
      ∧ (rest = [] ∨ ∃ more, rest = Effect.CheckRateLimit :: more) := by
  by_cases hstop : (NewGoogleCT cert).nextToken page = ""
  · refine ⟨[], ?_, Or.inl rfl⟩
    rw [loop_succ_stop cert web re req fuel n tok page hweb hstop]
    simp [GoogleCT.lastTrace, GoogleCT.names, GoogleCT.newName]
  · refine ⟨Effect.CheckRateLimit ::
      ((NewGoogleCT cert).loop web re req fuel (n + 1) ((NewGoogleCT cert).nextToken page)).trace,
      ?_, Or.inr ⟨_, rfl⟩⟩
    rw [loop_succ_continue cert web re req fuel n tok page hweb hstop]
    simp [Outcome.after, GoogleCT.names, GoogleCT.newName]

/-- Witness of C5: `pageTwo`, in which the pattern matches `a.example.com`,
`c.example.com` and `a.example.com` again. -/
theorem Amass.names_of_page_witness :
    ∃ rest, ((NewGoogleCT "cert").loop sampleWeb sampleRe sampleReq (0 + 1) 1 "abc").trace =
        (NewGoogleCT "cert").active
          :: Effect.RequestWebPage (pageURL sampleReq.Domain "abc") headers
          :: (sampleRe.FindAllString pageTwo).map (fun name =>
              Effect.Publish Topic.NewNameTopic Priority.PriorityHigh
                (Arg.request
                  { Name := name, Domain := sampleReq.Domain,
                    Tag := (NewGoogleCT "cert").SourceType,
                    Source := (NewGoogleCT "cert").String' }))
          ++ rest
      ∧ (rest = [] ∨ ∃ more, rest = Effect.CheckRateLimit :: more) :=
  names_of_page "cert" sampleWeb sampleRe sampleReq 0 1 "abc" pageTwo rfl

/-! ## Whole runs -/

theorem Amass.OnDNSRequest_loop (g : GoogleCT) (web : Web) (fuel : Nat) (ctx : Context)
    (cfg : Config) (bus : EventBus) (re : DomainRegexp) (req : DNSRequest)
    (hcfg : ctx.config = CtxValue.ptr cfg) (hbus : ctx.bus = CtxValue.ptr bus)
    (hre : cfg.DomainRegex req.Domain = some re) :
    g.OnDNSRequest web fuel ctx req = (g.loop web re req fuel 0 "").after [g.querying req] := by
  simp only [GoogleCT.OnDNSRequest, hcfg, hbus, CtxValue.assert, hre]

theorem Amass.OnDNSRequest_run (cert : String) (web : Web) (fuel : Nat) (ctx : Context)
    (cfg : Config) (bus : EventBus) (re : DomainRegexp) (req : DNSRequest) (ps : List String)
    (last : Except String String)
    (hcfg : ctx.config = CtxValue.ptr cfg) (hbus : ctx.bus = CtxValue.ptr bus)
    (hre : cfg.DomainRegex req.Domain = some re)
    (hs : Serves (NewGoogleCT cert) web req.Domain 0 "" ps)
    (hlast : web ps.length (pageURL req.Domain ((NewGoogleCT cert).lastToken "" ps)) = last)
    (hterm : Terminal (NewGoogleCT cert) last) (hfuel : ps.length < fuel) :
    (NewGoogleCT cert).OnDNSRequest web fuel ctx req =
      { trace := (NewGoogleCT cert).querying req :: ((NewGoogleCT cert).pagesTrace re req "" ps
          ++ (NewGoogleCT cert).lastTrace re req ((NewGoogleCT cert).lastToken "" ps) last),
        status := Status.returned } := by
  rw [OnDNSRequest_loop (NewGoogleCT cert) web fuel ctx cfg bus re req hcfg hbus hre,
    loop_run cert web re req ps fuel 0 "" last hs (by simpa using hlast) hterm hfuel]
  rfl

theorem Amass.fetched_append (xs ys : List Effect) :
    fetched (xs ++ ys) = fetched xs ++ fetched ys := by
  simp [fetched, List.filterMap_append]

theorem Amass.hostnames_append (xs ys : List Effect) :
    hostnames (xs ++ ys) = hostnames xs ++ hostnames ys := by
  simp [hostnames, List.filterMap_append]

theorem Amass.logs_append (xs ys : List Effect) : logs (xs ++ ys) = logs xs ++ logs ys := by
  simp [logs, List.filterMap_append]

theorem Amass.fetched_lastTrace (g : GoogleCT) (re : DomainRegexp) (req : DNSRequest)
    (tok : String) (last : Except String String) :
    fetched (g.lastTrace re req tok last) = [pageURL req.Domain tok] := by
  cases last with
  | error err => simp [fetched, GoogleCT.lastTrace, GoogleCT.active, GoogleCT.failure]
  | ok p =>
    have hn := fetched_names g re req p
    simp only [fetched] at hn ⊢
    simp [GoogleCT.lastTrace, GoogleCT.active, hn]

theorem Amass.hostnames_lastTrace (g : GoogleCT) (re : DomainRegexp) (req : DNSRequest)
    (tok : String) (last : Except String String) :
    hostnames (g.lastTrace re req tok last) =
      (foundIn re last).map (fun name =>
        { Name := name, Domain := req.Domain, Tag := g.SourceType, Source := g.String' }) := by
  cases last with
  | error err => simp [hostnames, GoogleCT.lastTrace, GoogleCT.active, GoogleCT.failure, foundIn]
  | ok p =>
    have hn := hostnames_names g re req p
    simp only [hostnames] at hn ⊢
    simp [GoogleCT.lastTrace, GoogleCT.active, hn, foundIn]

theorem Amass.logs_lastTrace (g : GoogleCT) (re : DomainRegexp) (req : DNSRequest)
    (tok : String) (last : Except String String) :
    logs (g.lastTrace re req tok last) =
      match last with
      | Except.error err => [g.String' ++ ": " ++ pageURL req.Domain tok ++ ": " ++ err]
      | Except.ok _ => [] := by
  cases last with
  | error err => simp [logs, GoogleCT.lastTrace, GoogleCT.active, GoogleCT.failure]
  | ok p =>
    have hn := logs_names g re req p
    simp only [logs] at hn ⊢
    simp [GoogleCT.lastTrace, GoogleCT.active, hn]

theorem Amass.fetched_pagesTrace (g : GoogleCT) (re : DomainRegexp) (req : DNSRequest)
    (ps : List String) :
    ∀ tok, fetched (g.pagesTrace re req tok ps) =
      (List.range ps.length).map (fun i => pageURL req.Domain (g.lastToken tok (ps.take i))) := by
  induction ps with
  | nil => intro tok; rfl
  | cons p ps ih =>
    intro tok
    have hn := fetched_names g re req p
    have hcons : fetched (g.pagesTrace re req tok (p :: ps)) =
        pageURL req.Domain tok :: fetched (g.pagesTrace re req (g.nextToken p) ps) := by
      simp only [fetched] at hn ⊢
      simp [GoogleCT.pagesTrace, GoogleCT.active, List.filterMap_append, hn]
    rw [hcons, ih, List.length_cons, List.range_succ_eq_map]
    simp [GoogleCT.lastToken, Function.comp_def]

theorem Amass.hostnames_pagesTrace (g : GoogleCT) (re : DomainRegexp) (req : DNSRequest)
    (ps : List String) :
    ∀ tok, hostnames (g.pagesTrace re req tok ps) =
      (ps.flatMap re.FindAllString).map (fun name =>
        { Name := name, Domain := req.Domain, Tag := g.SourceType, Source := g.String' }) := by
  induction ps with
  | nil => intro tok; rfl
  | cons p ps ih =>
    intro tok
    have hn := hostnames_names g re req p
    have hcons : hostnames (g.pagesTrace re req tok (p :: ps)) =
        hostnames (g.names re req p) ++ hostnames (g.pagesTrace re req (g.nextToken p) ps) := by
      simp only [hostnames]
      simp [GoogleCT.pagesTrace, GoogleCT.active, List.filterMap_append]
    rw [hcons, ih, hn]
    simp

theorem Amass.logs_pagesTrace (g : GoogleCT) (re : DomainRegexp) (req : DNSRequest)
    (ps : List String) : ∀ tok, logs (g.pagesTrace re req tok ps) = [] := by
  induction ps with
  | nil => intro tok; rfl
  | cons p ps ih =>
    intro tok
    have hn := logs_names g re req p
    have hcons : logs (g.pagesTrace re req tok (p :: ps)) =
        logs (g.names re req p) ++ logs (g.pagesTrace re req (g.nextToken p) ps) := by
      simp only [logs]
      simp [GoogleCT.pagesTrace, GoogleCT.active, List.filterMap_append]
    rw [hcons, ih, hn]
    rfl

theorem Amass.beforeFetch_append (k : Nat) (xs ys : List Effect) (h : fetched xs = []) :
    beforeFetch k (xs ++ ys) = xs ++ beforeFetch k ys := by
  induction xs with
  | nil => rfl
  | cons e xs ih =>
    cases e with
    | RequestWebPage u hd => simp [fetched] at h
    | CheckRateLimit =>
      have h2 : fetched xs = [] := by simpa [fetched] using h
      simp [beforeFetch, ih h2]
    | Publish t pr a =>
      have h2 : fetched xs = [] := by simpa [fetched] using h
      simp [beforeFetch, ih h2]

theorem Amass.beforeFetch_none (k : Nat) (xs : List Effect) (h : fetched xs = []) :
    beforeFetch k xs = xs := by
  have h2 := beforeFetch_append k xs [] h
  simpa [beforeFetch] using h2

theorem Amass.hostnames_beforeFetch_last (g : GoogleCT) (re : DomainRegexp) (req : DNSRequest)
    (tok : String) (last : Except String String) (k : Nat) :
    hostnames (beforeFetch k (g.lastTrace re req tok last)) =
      (([last].take k).flatMap (foundIn re)).map (fun name =>
        { Name := name, Domain := req.Domain, Tag := g.SourceType, Source := g.String' }) := by
  cases k with
  | zero => cases last <;> simp [GoogleCT.lastTrace, GoogleCT.active, beforeFetch, hostnames]
  | succ k =>
    have hrest : ∀ tail : List Effect, fetched tail = [] →
        hostnames (beforeFetch (k + 1)
          (g.active :: Effect.RequestWebPage (pageURL req.Domain tok) headers :: tail)) =
        hostnames tail := by
      intro tail ht
      simp only [GoogleCT.active, beforeFetch, beforeFetch_none k tail ht]
      simp [hostnames]
    cases last with
    | error err =>
      have h := hrest [g.failure (pageURL req.Domain tok) err]
        (by simp [fetched, GoogleCT.failure])
      simp only [GoogleCT.lastTrace]
      rw [h]
      simp [hostnames, GoogleCT.failure, foundIn]
    | ok p =>
      have h := hrest (g.names re req p) (fetched_names g re req p)
      simp only [GoogleCT.lastTrace]
      rw [h, hostnames_names]
      simp [foundIn]

theorem Amass.hostnames_beforeFetch_run (g : GoogleCT) (re : DomainRegexp) (req : DNSRequest)
    (last : Except String String) (tok' : String) (ps : List String) :
    ∀ (tok : String) (k : Nat),
      hostnames (beforeFetch k (g.pagesTrace re req tok ps ++ g.lastTrace re req tok' last)) =
        (((ps.map Except.ok ++ [last]).take k).flatMap (foundIn re)).map (fun name =>
          { Name := name, Domain := req.Domain, Tag := g.SourceType, Source := g.String' }) := by
  induction ps with
  | nil =>
    intro tok k
    simpa [GoogleCT.pagesTrace] using hostnames_beforeFetch_last g re req tok' last k
  | cons p ps ih =>
    intro tok k
    cases k with
    | zero => simp [GoogleCT.pagesTrace, GoogleCT.active, beforeFetch, hostnames]
    | succ k =>
      have hstep : beforeFetch (k + 1)
          (g.pagesTrace re req tok (p :: ps) ++ g.lastTrace re req tok' last) =
          g.active :: Effect.RequestWebPage (pageURL req.Domain tok) headers
            :: (g.names re req p ++ Effect.CheckRateLimit
              :: beforeFetch k (g.pagesTrace re req (g.nextToken p) ps
                ++ g.lastTrace re req tok' last)) := by
        have hcons : g.pagesTrace re req tok (p :: ps) =
            g.active :: Effect.RequestWebPage (pageURL req.Domain tok) headers
              :: (g.names re req p ++ Effect.CheckRateLimit
                :: g.pagesTrace re req (g.nextToken p) ps) := rfl
        rw [hcons]
        simp only [GoogleCT.active, beforeFetch, List.cons_append, List.append_eq,
          List.append_assoc]
        rw [beforeFetch_append k _ _ (fetched_names g re req p)]
        simp [beforeFetch]
      rw [hstep]
      have hsplit : hostnames (g.active :: Effect.RequestWebPage (pageURL req.Domain tok) headers
            :: (g.names re req p ++ Effect.CheckRateLimit
              :: beforeFetch k (g.pagesTrace re req (g.nextToken p) ps
                ++ g.lastTrace re req tok' last))) =
          hostnames (g.names re req p) ++ hostnames (beforeFetch k
            (g.pagesTrace re req (g.nextToken p) ps ++ g.lastTrace re req tok' last)) := by
        simp only [hostnames]
        simp [GoogleCT.active, List.filterMap_append]
      rw [hsplit, ih, hostnames_names]
      simp [foundIn]

/-- C6: when the pages `ps` are fetched, each leaving a token, and the next
fetch (page `ps.length + 1`) fails with the error `err`, the call returns;
the names published are those of the pages `ps`, in order, and no other; the
fetches are those of the pages `ps` and the failed one, and no later one; and
the log topic carries the start message and one failure message. -/
theorem Amass.transport_failure (cert : String) (web : Web) (fuel : Nat) (ctx : Context)
    (cfg : Config) (bus : EventBus) (re : DomainRegexp) (req : DNSRequest) (ps : List String)
    (err : String)
    (hcfg : ctx.config = CtxValue.ptr cfg) (hbus : ctx.bus = CtxValue.ptr bus)
    (hre : cfg.DomainRegex req.Domain = some re)
    (hs : Serves (NewGoogleCT cert) web req.Domain 0 "" ps)
    (herr : web ps.length (pageURL req.Domain ((NewGoogleCT cert).lastToken "" ps)) =
      Except.error err)
    (hfuel : ps.length < fuel) :
    ((NewGoogleCT cert).OnDNSRequest web fuel ctx req).status = Status.returned
      ∧ hostnames ((NewGoogleCT cert).OnDNSRequest web fuel ctx req).trace =
        (ps.flatMap re.FindAllString).map (fun name =>
          { Name := name, Domain := req.Domain, Tag := (NewGoogleCT cert).SourceType,
            Source := (NewGoogleCT cert).String' })
      ∧ fetched ((NewGoogleCT cert).OnDNSRequest web fuel ctx req).trace =
        (List.range (ps.length + 1)).map (fun i =>
          pageURL req.Domain ((NewGoogleCT cert).lastToken "" (ps.take i)))
      ∧ logs ((NewGoogleCT cert).OnDNSRequest web fuel ctx req).trace =
        ["Querying GoogleCT for " ++ req.Domain ++ " subdomains",
          "GoogleCT: " ++ pageURL req.Domain ((NewGoogleCT cert).lastToken "" ps) ++ ": "
            ++ err] := by
  have hrun := OnDNSRequest_run cert web fuel ctx cfg bus re req ps (Except.error err)
    hcfg hbus hre hs herr trivial hfuel
  rw [hrun]
  refine ⟨rfl, ?_, ?_, ?_⟩
  · have hq : hostnames [(NewGoogleCT cert).querying req] = [] := rfl
    have h := hostnames_append [(NewGoogleCT cert).querying req]
      ((NewGoogleCT cert).pagesTrace re req "" ps ++ (NewGoogleCT cert).lastTrace re req
        ((NewGoogleCT cert).lastToken "" ps) (Except.error err))
    simp only [List.singleton_append] at h
    rw [h, hq, hostnames_append, hostnames_pagesTrace, hostnames_lastTrace]
    simp [foundIn]
  · have hq : fetched [(NewGoogleCT cert).querying req] = [] := rfl
    have h := fetched_append [(NewGoogleCT cert).querying req]
      ((NewGoogleCT cert).pagesTrace re req "" ps ++ (NewGoogleCT cert).lastTrace re req
        ((NewGoogleCT cert).lastToken "" ps) (Except.error err))
    simp only [List.singleton_append] at h
    rw [h, hq, fetched_append, fetched_pagesTrace, fetched_lastTrace]
    simp [List.range_succ]
  · have hq : logs [(NewGoogleCT cert).querying req] =
        ["Querying GoogleCT for " ++ req.Domain ++ " subdomains"] := rfl
    have h := logs_append [(NewGoogleCT cert).querying req]
      ((NewGoogleCT cert).pagesTrace re req "" ps ++ (NewGoogleCT cert).lastTrace re req
        ((NewGoogleCT cert).lastToken "" ps) (Except.error err))
    simp only [List.singleton_append] at h
    rw [h, hq, logs_append, logs_pagesTrace, logs_lastTrace]
    rfl

/-- Witness of C6: `failingWeb` serves `pageOne` and fails on the second
fetch. -/
theorem Amass.transport_failure_witness :
    ((NewGoogleCT "cert").OnDNSRequest failingWeb 2 sampleCtx sampleReq).status
        = Status.returned
      ∧ hostnames ((NewGoogleCT "cert").OnDNSRequest failingWeb 2 sampleCtx sampleReq).trace =
        ([pageOne].flatMap sampleRe.FindAllString).map (fun name =>
          { Name := name, Domain := sampleReq.Domain, Tag := (NewGoogleCT "cert").SourceType,
            Source := (NewGoogleCT "cert").String' })
      ∧ fetched ((NewGoogleCT "cert").OnDNSRequest failingWeb 2 sampleCtx sampleReq).trace =
        (List.range ([pageOne].length + 1)).map (fun i =>
          pageURL sampleReq.Domain ((NewGoogleCT "cert").lastToken "" ([pageOne].take i)))
      ∧ logs ((NewGoogleCT "cert").OnDNSRequest failingWeb 2 sampleCtx sampleReq).trace =
        ["Querying GoogleCT for " ++ sampleReq.Domain ++ " subdomains",
          "GoogleCT: " ++ pageURL sampleReq.Domain ((NewGoogleCT "cert").lastToken "" [pageOne])
            ++ ": " ++ "timeout"] :=
  transport_failure "cert" failingWeb 2 sampleCtx sampleCfg EventBus.mk sampleRe sampleReq
    [pageOne] "timeout" rfl rfl rfl ⟨rfl, by decide, trivial⟩ rfl (by decide)

/-- The part of the silent drop that the code achieves: when the
configuration has no pattern for the domain of the request, `OnDNSRequest`
has no effect at all (no event, no fetch); it returns when the context
carries an event-bus value, the type assertion on the bus coming before the
lookup of the pattern. -/
theorem Amass.no_pattern_dropped (g : GoogleCT) (web : Web) (fuel : Nat) (ctx : Context)
    (cfg : Config) (req : DNSRequest)
    (hcfg : ctx.config = CtxValue.ptr cfg) (hre : cfg.DomainRegex req.Domain = none) :
    (g.OnDNSRequest web fuel ctx req).trace = []
      ∧ (ctx.bus.assert ≠ none →
        g.OnDNSRequest web fuel ctx req = { trace := [], status := Status.returned }) := by
  cases hb : ctx.bus with
  | absent => simp [GoogleCT.OnDNSRequest, hcfg, hb, CtxValue.assert]
  | other => simp [GoogleCT.OnDNSRequest, hcfg, hb, CtxValue.assert]
  | nilPtr => simp [GoogleCT.OnDNSRequest, hcfg, hb, CtxValue.assert]
  | ptr b => simp [GoogleCT.OnDNSRequest, hcfg, hb, CtxValue.assert, hre]

/-- C7, at the failing input: the sample configuration has no pattern for
`other.org`, and with a context that carries this configuration but no
event-bus value the call does not return: the type assertion on the bus
panics, before the pattern is looked up. With a bus in the context the same
request is dropped without effect. -/
theorem Amass.no_pattern_without_bus_panics :
    (sampleCfg.DomainRegex otherReq.Domain).isNone = true
      ∧ (NewGoogleCT "cert").OnDNSRequest sampleWeb 5 busLessCtx otherReq =
        { trace := [], status := Status.panicked }
      ∧ (NewGoogleCT "cert").OnDNSRequest sampleWeb 5 sampleCtx otherReq =
        { trace := [], status := Status.returned } := by
  refine ⟨rfl, rfl, rfl⟩

/-- C8: in a run whose fetch outcomes are the pages `ps`, each leaving a
token, and then `last`, which ends the loop, the names published are the
matches of each page in match order, concatenated in page order; and, for
every `k`, the names published before the `k`-th fetch (counted from 0)
are exactly those of the first `k` pages: the names of a page are out
before the next page is fetched. -/
theorem Amass.names_streamed (cert : String) (web : Web) (fuel : Nat) (ctx : Context)
    (cfg : Config) (bus : EventBus) (re : DomainRegexp) (req : DNSRequest) (ps : List String)
    (last : Except String String)
    (hcfg : ctx.config = CtxValue.ptr cfg) (hbus : ctx.bus = CtxValue.ptr bus)
    (hre : cfg.DomainRegex req.Domain = some re)
    (hs : Serves (NewGoogleCT cert) web req.Domain 0 "" ps)
    (hlast : web ps.length (pageURL req.Domain ((NewGoogleCT cert).lastToken "" ps)) = last)
    (hterm : Terminal (NewGoogleCT cert) last) (hfuel : ps.length < fuel) :
    hostnames ((NewGoogleCT cert).OnDNSRequest web fuel ctx req).trace =
        ((ps.map Except.ok ++ [last]).flatMap (foundIn re)).map (fun name =>
          { Name := name, Domain := req.Domain, Tag := (NewGoogleCT cert).SourceType,
            Source := (NewGoogleCT cert).String' })
      ∧ ∀ k, hostnames
          (beforeFetch k ((NewGoogleCT cert).OnDNSRequest web fuel ctx req).trace) =
        (((ps.map Except.ok ++ [last]).take k).flatMap (foundIn re)).map (fun name =>
          { Name := name, Domain := req.Domain, Tag := (NewGoogleCT cert).SourceType,
            Source := (NewGoogleCT cert).String' }) := by
  have hrun := OnDNSRequest_run cert web fuel ctx cfg bus re req ps last
    hcfg hbus hre hs hlast hterm hfuel
  rw [hrun]
  have hq : hostnames [(NewGoogleCT cert).querying req] = [] := rfl
  constructor
  · have h := hostnames_append [(NewGoogleCT cert).querying req]
      ((NewGoogleCT cert).pagesTrace re req "" ps ++ (NewGoogleCT cert).lastTrace re req
        ((NewGoogleCT cert).lastToken "" ps) last)
    simp only [List.singleton_append] at h
    rw [h, hq, hostnames_append, hostnames_pagesTrace, hostnames_lastTrace]
    simp [List.flatMap_append, List.flatMap_map, foundIn, Function.comp_def]
  · intro k
    have hb : beforeFetch k ((NewGoogleCT cert).querying req
        :: ((NewGoogleCT cert).pagesTrace re req "" ps ++ (NewGoogleCT cert).lastTrace re req
          ((NewGoogleCT cert).lastToken "" ps) last)) =
        (NewGoogleCT cert).querying req :: beforeFetch k
          ((NewGoogleCT cert).pagesTrace re req "" ps ++ (NewGoogleCT cert).lastTrace re req
            ((NewGoogleCT cert).lastToken "" ps) last) := by
      simp [GoogleCT.querying, beforeFetch]
    have h := hostnames_append [(NewGoogleCT cert).querying req]
      (beforeFetch k ((NewGoogleCT cert).pagesTrace re req "" ps
        ++ (NewGoogleCT cert).lastTrace re req ((NewGoogleCT cert).lastToken "" ps) last))
    simp only [List.singleton_append] at h
    simp only [hb]
    rw [h, hq, hostnames_beforeFetch_run]
    rfl

/-- Witness of C8: `sampleWeb` serves `pageOne`, which leaves the token
`abc`, and then `pageTwo`, which leaves none. -/
theorem Amass.names_streamed_witness :
    hostnames ((NewGoogleCT "cert").OnDNSRequest sampleWeb 2 sampleCtx sampleReq).trace =
        (([pageOne].map Except.ok ++ [Except.ok pageTwo]).flatMap (foundIn sampleRe)).map
          (fun name =>
            { Name := name, Domain := sampleReq.Domain,
              Tag := (NewGoogleCT "cert").SourceType, Source := (NewGoogleCT "cert").String' })
      ∧ ∀ k, hostnames
          (beforeFetch k ((NewGoogleCT "cert").OnDNSRequest sampleWeb 2 sampleCtx sampleReq).trace)
        = ((([pageOne].map Except.ok ++ [Except.ok pageTwo]).take k).flatMap
            (foundIn sampleRe)).map
          (fun name =>
            { Name := name, Domain := sampleReq.Domain,
              Tag := (NewGoogleCT "cert").SourceType, Source := (NewGoogleCT "cert").String' }) :=
  names_streamed "cert" sampleWeb 2 sampleCtx sampleCfg EventBus.mk sampleRe sampleReq
    [pageOne] (Except.ok pageTwo) rfl rfl rfl ⟨rfl, by decide, trivial⟩ rfl
    (by show (NewGoogleCT "cert").nextToken pageTwo = ""; decide) (by decide)

/-- C9: in a run whose fetch outcomes are the pages `ps`, each leaving a
token, and then an outcome that is a failure or a page without a surviving
token, `OnDNSRequest` returns (for every number of iterations allowed above
`ps.length`), and its fetches are exactly those of these `ps.length + 1`
outcomes, in order: the first with no token, each later one with the token
of the page before it, and none after the outcome that ends the loop. -/
theorem Amass.run_terminates (cert : String) (web : Web) (fuel : Nat) (ctx : Context)
    (cfg : Config) (bus : EventBus) (re : DomainRegexp) (req : DNSRequest) (ps : List String)
    (last : Except String String)
    (hcfg : ctx.config = CtxValue.ptr cfg) (hbus : ctx.bus = CtxValue.ptr bus)
    (hre : cfg.DomainRegex req.Domain = some re)
    (hs : Serves (NewGoogleCT cert) web req.Domain 0 "" ps)
    (hlast : web ps.length (pageURL req.Domain ((NewGoogleCT cert).lastToken "" ps)) = last)
    (hterm : Terminal (NewGoogleCT cert) last) (hfuel : ps.length < fuel) :
    ((NewGoogleCT cert).OnDNSRequest web fuel ctx req).status = Status.returned
      ∧ fetched ((NewGoogleCT cert).OnDNSRequest web fuel ctx req).trace =
        (List.range (ps.length + 1)).map (fun i =>
          pageURL req.Domain ((NewGoogleCT cert).lastToken "" (ps.take i)))
      ∧ (fetched ((NewGoogleCT cert).OnDNSRequest web fuel ctx req).trace).length =
        ps.length + 1 := by
  have hrun := OnDNSRequest_run cert web fuel ctx cfg bus re req ps last
    hcfg hbus hre hs hlast hterm hfuel
  have hq : fetched [(NewGoogleCT cert).querying req] = [] := rfl
  have h := fetched_append [(NewGoogleCT cert).querying req]
    ((NewGoogleCT cert).pagesTrace re req "" ps ++ (NewGoogleCT cert).lastTrace re req
      ((NewGoogleCT cert).lastToken "" ps) last)
  simp only [List.singleton_append] at h
  have hf : fetched ((NewGoogleCT cert).OnDNSRequest web fuel ctx req).trace =
      (List.range (ps.length + 1)).map (fun i =>
        pageURL req.Domain ((NewGoogleCT cert).lastToken "" (ps.take i))) := by
    rw [hrun]
    simp only []
    rw [h, hq, fetched_append, fetched_pagesTrace, fetched_lastTrace]
    simp [List.range_succ]
  refine ⟨by rw [hrun], hf, ?_⟩
  rw [hf]
  simp

/-- Witness of C9: `sampleWeb` serves `pageOne` and then `pageTwo`, whose
counters are equal. -/
theorem Amass.run_terminates_witness :
    ((NewGoogleCT "cert").OnDNSRequest sampleWeb 7 sampleCtx sampleReq).status
        = Status.returned
      ∧ fetched ((NewGoogleCT "cert").OnDNSRequest sampleWeb 7 sampleCtx sampleReq).trace =
        (List.range ([pageOne].length + 1)).map (fun i =>
          pageURL sampleReq.Domain ((NewGoogleCT "cert").lastToken "" ([pageOne].take i)))
      ∧ (fetched ((NewGoogleCT "cert").OnDNSRequest sampleWeb 7 sampleCtx sampleReq).trace).length
        = [pageOne].length + 1 :=
  run_terminates "cert" sampleWeb 7 sampleCtx sampleCfg EventBus.mk sampleRe sampleReq
    [pageOne] (Except.ok pageTwo) rfl rfl rfl ⟨rfl, by decide, trivial⟩ rfl
    (by show (NewGoogleCT "cert").nextToken pageTwo = ""; decide) (by decide)

/-- C10, as stated, fails: with the context cancelled while the unit is
blocked in its first fetch, the run goes on as if nothing had happened: after
that fetch it publishes the names of the first page, fetches the second page
and publishes its names. -/
theorem Amass.cancellation_counterexample :
    cancelledCtx.cancelled = some 0
      ∧ hostnames (afterBlocking 0
          ((NewGoogleCT "cert").OnDNSRequest sampleWeb 3 cancelledCtx sampleReq).trace) =
        [{ Name := "a.example.com", Domain := "example.com", Tag := "cert", Source := "GoogleCT" },
          { Name := "b.example.com", Domain := "example.com", Tag := "cert", Source := "GoogleCT" },
          { Name := "a.example.com", Domain := "example.com", Tag := "cert", Source := "GoogleCT" },
          { Name := "c.example.com", Domain := "example.com", Tag := "cert", Source := "GoogleCT" },
          { Name := "a.example.com", Domain := "example.com", Tag := "cert", Source := "GoogleCT" }]
      ∧ fetched (afterBlocking 0
          ((NewGoogleCT "cert").OnDNSRequest sampleWeb 3 cancelledCtx sampleReq).trace) =
        [pageURL "example.com" "abc"] := by
  decide

/-- C10 (amended): `OnDNSRequest` never consults the cancellation of its
context: whatever the cancellation state of the context, also when it is
cancelled while the unit is blocked in a fetch or in a rate-limit wait, the
call has the same effects and ends the same way as without cancellation. -/
theorem Amass.cancellation_ignored (g : GoogleCT) (web : Web) (fuel : Nat) (ctx : Context)
    (req : DNSRequest) (c : Option Nat) :
    g.OnDNSRequest web fuel { ctx with cancelled := c } req = g.OnDNSRequest web fuel ctx req := by
  rfl

/-! ## Panics, rate limiting and heartbeats -/

/-- C11, at the failing inputs: with a context that carries no configuration
value, and with one that carries a configuration but no event bus, the type
assertion at the top of `OnDNSRequest` panics, before any effect and before
the nil check that follows it. -/
theorem Amass.missing_value_panics :
    (NewGoogleCT "cert").OnDNSRequest sampleWeb 5 backgroundCtx sampleReq =
        { trace := [], status := Status.panicked }
      ∧ (NewGoogleCT "cert").OnDNSRequest sampleWeb 5 busLessCtx sampleReq =
        { trace := [], status := Status.panicked } := by
  constructor <;> rfl

theorem Amass.waitsBefore_names (g : GoogleCT) (re : DomainRegexp) (req : DNSRequest)
    (page : String) (acc : Nat) (rest : List Effect) :
    waitsBefore acc (g.names re req page ++ rest) = waitsBefore acc rest := by
  simp only [GoogleCT.names]
  induction re.FindAllString page with
  | nil => rfl
  | cons x xs ih => simpa [GoogleCT.newName, waitsBefore] using ih

theorem Amass.waitsBefore_loop (cert : String) (web : Web) (re : DomainRegexp)
    (req : DNSRequest) (fuel : Nat) :
    ∀ (n : Nat) (tok : String) (acc : Nat),
      waitsBefore acc ((NewGoogleCT cert).loop web re req fuel n tok).trace =
        (List.range (fetched ((NewGoogleCT cert).loop web re req fuel n tok).trace).length).map
          (fun i => if i = 0 then acc else 1) := by
  induction fuel with
  | zero => intro n tok acc; rfl
  | succ fuel ih =>
    intro n tok acc
    cases h : web n (pageURL req.Domain tok) with
    | error err =>
      rw [loop_succ_error cert web re req fuel n tok err h]
      simp [GoogleCT.lastTrace, GoogleCT.active, GoogleCT.failure, waitsBefore, fetched,
        List.range_succ]
    | ok page =>
      by_cases hstop : (NewGoogleCT cert).nextToken page = ""
      · rw [loop_succ_stop cert web re req fuel n tok page h hstop]
        have hw := waitsBefore_names (NewGoogleCT cert) re req page 0 []
        have hf := fetched_names (NewGoogleCT cert) re req page
        simp only [List.append_nil] at hw
        simp only [fetched] at hf
        simp [GoogleCT.lastTrace, GoogleCT.active, waitsBefore, fetched, hw, hf, List.range_succ]
      · rw [loop_succ_continue cert web re req fuel n tok page h hstop]
        have hf := fetched_names (NewGoogleCT cert) re req page
        have hw : waitsBefore acc (((NewGoogleCT cert).loop web re req fuel (n + 1)
            ((NewGoogleCT cert).nextToken page)).after
              ((NewGoogleCT cert).active :: Effect.RequestWebPage (pageURL req.Domain tok) headers
                :: (NewGoogleCT cert).names re req page ++ [Effect.CheckRateLimit])).trace =
            acc :: waitsBefore 1 ((NewGoogleCT cert).loop web re req fuel (n + 1)
              ((NewGoogleCT cert).nextToken page)).trace := by
          simp only [Outcome.after, GoogleCT.active, List.cons_append, waitsBefore,
            List.append_eq, List.append_assoc]
          rw [waitsBefore_names]
          simp [waitsBefore]
        have hfe : fetched (((NewGoogleCT cert).loop web re req fuel (n + 1)
            ((NewGoogleCT cert).nextToken page)).after
              ((NewGoogleCT cert).active :: Effect.RequestWebPage (pageURL req.Domain tok) headers
                :: (NewGoogleCT cert).names re req page ++ [Effect.CheckRateLimit])).trace =
            pageURL req.Domain tok :: fetched ((NewGoogleCT cert).loop web re req fuel (n + 1)
              ((NewGoogleCT cert).nextToken page)).trace := by
          simp only [fetched] at hf ⊢
          simp [Outcome.after, GoogleCT.active, List.filterMap_append, hf]
        rw [hw, hfe, ih, List.length_cons, List.range_succ_eq_map]
        simp [Function.comp_def]

theorem Amass.OnDNSRequest_cases (g : GoogleCT) (web : Web) (fuel : Nat) (ctx : Context)
    (req : DNSRequest) :
    (g.OnDNSRequest web fuel ctx req).trace = []
      ∨ ∃ re, g.OnDNSRequest web fuel ctx req =
        (g.loop web re req fuel 0 "").after [g.querying req] := by
  unfold GoogleCT.OnDNSRequest
  cases ctx.config.assert with
  | none => exact Or.inl rfl
  | some cfg =>
    cases ctx.bus.assert with
    | none => exact Or.inl rfl
    | some bus =>
      cases cfg with
      | none => exact Or.inl rfl
      | some cfg =>
        cases bus with
        | none => exact Or.inl rfl
        | some bus =>
          cases h : cfg.DomainRegex req.Domain with
          | none => simp [h]
          | some re => exact Or.inr ⟨re, by simp [h]⟩

/-- C12, as stated, fails: in the sample run of two pages no rate-limit wait
comes before the first fetch; the only wait is the one between the first
fetch and the second. -/
theorem Amass.first_fetch_unlimited_counterexample :
    fetched ((NewGoogleCT "cert").OnDNSRequest sampleWeb 5 sampleCtx sampleReq).trace =
        [pageURL "example.com" "", pageURL "example.com" "abc"]
      ∧ waitsBefore 0 ((NewGoogleCT "cert").OnDNSRequest sampleWeb 5 sampleCtx sampleReq).trace =
        [0, 1] := by
  decide

theorem Amass.beforeEachFetch_names (g : GoogleCT) (re : DomainRegexp) (req : DNSRequest)
    (page : String) (prev : Option Effect) :
    beforeEachFetch prev (g.names re req page) = [] := by
  simp only [GoogleCT.names]
  induction re.FindAllString page generalizing prev with
  | nil => rfl
  | cons x xs ih => simpa [GoogleCT.newName, beforeEachFetch] using ih _

theorem Amass.beforeEachFetch_names_wait (g : GoogleCT) (re : DomainRegexp) (req : DNSRequest)
    (page : String) (prev : Option Effect) (rest : List Effect) :
    beforeEachFetch prev (g.names re req page ++ Effect.CheckRateLimit :: rest) =
      beforeEachFetch (some Effect.CheckRateLimit) rest := by
  simp only [GoogleCT.names]
  induction re.FindAllString page generalizing prev with
  | nil => rfl
  | cons x xs ih => simpa [GoogleCT.newName, beforeEachFetch] using ih _

theorem Amass.heartbeats_names (g : GoogleCT) (re : DomainRegexp) (req : DNSRequest)
    (page : String) : heartbeats (g.names re req page) = [] := by
  simp [heartbeats, GoogleCT.names, GoogleCT.newName]

theorem Amass.heartbeat_loop (cert : String) (web : Web) (re : DomainRegexp)
    (req : DNSRequest) (fuel : Nat) :
    ∀ (n : Nat) (tok : String) (prev : Option Effect),
      beforeEachFetch prev ((NewGoogleCT cert).loop web re req fuel n tok).trace =
          List.replicate (fetched ((NewGoogleCT cert).loop web re req fuel n tok).trace).length
            (some (Effect.Publish Topic.SetActiveTopic Priority.PriorityCritical
              (Arg.text "GoogleCT")))
        ∧ heartbeats ((NewGoogleCT cert).loop web re req fuel n tok).trace =
          List.replicate (fetched ((NewGoogleCT cert).loop web re req fuel n tok).trace).length
            "GoogleCT" := by
  induction fuel with
  | zero => intro n tok prev; exact ⟨rfl, rfl⟩
  | succ fuel ih =>
    intro n tok prev
    have hname : (NewGoogleCT cert).String' = "GoogleCT" := rfl
    have hf := fetched_names (NewGoogleCT cert) re req
    have hh := heartbeats_names (NewGoogleCT cert) re req
    simp only [fetched] at hf
    simp only [heartbeats] at hh
    cases h : web n (pageURL req.Domain tok) with
    | error err =>
      rw [loop_succ_error cert web re req fuel n tok err h]
      constructor
      · simp [GoogleCT.lastTrace, GoogleCT.active, GoogleCT.failure, beforeEachFetch, fetched,
          hname]
      · simp [GoogleCT.lastTrace, GoogleCT.active, GoogleCT.failure, heartbeats, fetched,
          hname]
    | ok page =>
      by_cases hstop : (NewGoogleCT cert).nextToken page = ""
      · rw [loop_succ_stop cert web re req fuel n tok page h hstop]
        constructor
        · simp [GoogleCT.lastTrace, GoogleCT.active, beforeEachFetch, fetched, hf,
            beforeEachFetch_names, hname]
        · simp [GoogleCT.lastTrace, GoogleCT.active, heartbeats, fetched, hf, hh,
            hname]
      · rw [loop_succ_continue cert web re req fuel n tok page h hstop]
        obtain ⟨ih1, ih2⟩ := ih (n + 1) ((NewGoogleCT cert).nextToken page)
          (some Effect.CheckRateLimit)
        have hfe : fetched (((NewGoogleCT cert).loop web re req fuel (n + 1)
            ((NewGoogleCT cert).nextToken page)).after
              ((NewGoogleCT cert).active :: Effect.RequestWebPage (pageURL req.Domain tok) headers
                :: (NewGoogleCT cert).names re req page ++ [Effect.CheckRateLimit])).trace =
            pageURL req.Domain tok :: fetched ((NewGoogleCT cert).loop web re req fuel (n + 1)
              ((NewGoogleCT cert).nextToken page)).trace := by
          simp only [fetched]
          simp [Outcome.after, GoogleCT.active, List.filterMap_append, hf]
        rw [hfe]
        constructor
        · simp only [Outcome.after, GoogleCT.active, List.cons_append, beforeEachFetch,
            List.append_eq, List.append_assoc, List.nil_append]
          rw [beforeEachFetch_names_wait, ih1]
          simp [List.replicate_succ, hname]
        · have hsplit : heartbeats (((NewGoogleCT cert).loop web re req fuel (n + 1)
              ((NewGoogleCT cert).nextToken page)).after
                ((NewGoogleCT cert).active
                  :: Effect.RequestWebPage (pageURL req.Domain tok) headers
                  :: (NewGoogleCT cert).names re req page ++ [Effect.CheckRateLimit])).trace =
              "GoogleCT" :: heartbeats ((NewGoogleCT cert).loop web re req fuel (n + 1)
                ((NewGoogleCT cert).nextToken page)).trace := by
            simp only [heartbeats]
            simp [Outcome.after, GoogleCT.active, List.filterMap_append, hh, hname]
          rw [hsplit, ih2]
          simp [List.replicate_succ]

/-- C13: in every call, the effect immediately before each page fetch is the
heartbeat, published on the set-active topic at critical priority with the
label `GoogleCT` of the unit; the heartbeats of the call are these and no
other, so there are as many heartbeats as fetches. -/
theorem Amass.heartbeat_before_fetch (cert : String) (web : Web) (fuel : Nat)
    (ctx : Context) (req : DNSRequest) :
    beforeEachFetch none ((NewGoogleCT cert).OnDNSRequest web fuel ctx req).trace =
        List.replicate (fetched ((NewGoogleCT cert).OnDNSRequest web fuel ctx req).trace).length
          (some (Effect.Publish Topic.SetActiveTopic Priority.PriorityCritical
            (Arg.text "GoogleCT")))
      ∧ heartbeats ((NewGoogleCT cert).OnDNSRequest web fuel ctx req).trace =
        List.replicate (fetched ((NewGoogleCT cert).OnDNSRequest web fuel ctx req).trace).length
          "GoogleCT"
      ∧ (heartbeats ((NewGoogleCT cert).OnDNSRequest web fuel ctx req).trace).length =
        (fetched ((NewGoogleCT cert).OnDNSRequest web fuel ctx req).trace).length := by
  rcases OnDNSRequest_cases (NewGoogleCT cert) web fuel ctx req with h | ⟨re, h⟩
  · rw [h]
    exact ⟨rfl, rfl, rfl⟩
  · obtain ⟨h1, h2⟩ := heartbeat_loop cert web re req fuel 0 ""
      (some ((NewGoogleCT cert).querying req))
    have hb : beforeEachFetch none ((NewGoogleCT cert).OnDNSRequest web fuel ctx req).trace =
        List.replicate (fetched ((NewGoogleCT cert).OnDNSRequest web fuel ctx req).trace).length
          (some (Effect.Publish Topic.SetActiveTopic Priority.PriorityCritical
            (Arg.text "GoogleCT"))) := by
      rw [h]
      simpa [Outcome.after, GoogleCT.querying, beforeEachFetch, fetched] using h1
    have hh : heartbeats ((NewGoogleCT cert).OnDNSRequest web fuel ctx req).trace =
        List.replicate (fetched ((NewGoogleCT cert).OnDNSRequest web fuel ctx req).trace).length
          "GoogleCT" := by
      rw [h]
      simpa [Outcome.after, GoogleCT.querying, heartbeats, fetched] using h2
    refine ⟨hb, hh, ?_⟩
    rw [hh]
    simp

/-- An instance of C13 with two fetches: the sample run. -/
theorem Amass.heartbeat_before_fetch_witness :
    (fetched ((NewGoogleCT "cert").OnDNSRequest sampleWeb 5 sampleCtx sampleReq).trace).length = 2
      ∧ (heartbeats ((NewGoogleCT "cert").OnDNSRequest sampleWeb 5 sampleCtx sampleReq).trace).length
        = (fetched ((NewGoogleCT "cert").OnDNSRequest sampleWeb 5 sampleCtx sampleReq).trace).length :=
  ⟨by decide, (heartbeat_before_fetch "cert" sampleWeb 5 sampleCtx sampleReq).2.2⟩

/-! ## Reading the query back -/

theorem Amass.utf8Bytes_lt (c : Char) : ∀ b ∈ utf8Bytes c, b < 256 := by
  have hv : c.toNat < 1114112 := by
    have h := c.valid
    simp only [UInt32.isValidChar, Nat.isValidChar] at h
    show c.val.toNat < 1114112
    omega
  intro b hb
  simp only [utf8Bytes] at hb
  split_ifs at hb <;> simp at hb <;> omega

theorem Amass.bytesOf_lt (s : String) : ∀ b ∈ bytesOf s, b < 256 := by
  intro b hb
  simp only [bytesOf, List.mem_flatMap] at hb
  obtain ⟨c, _, hc⟩ := hb
  exact utf8Bytes_lt c b hc

set_option maxRecDepth 100000 in
theorem Amass.plain_byte :
    ∀ b, b < 256 → shouldEscape b encoding.encodeQueryComponent = false →
      (Char.ofNat b ≠ '%' ∧ Char.ofNat b ≠ '+' ∧ utf8Bytes (Char.ofNat b) = [b]) := by
  decide

set_option maxRecDepth 100000 in
theorem Amass.escapeByte_escaped :
    ∀ b, b < 256 → (escapeByte encoding.encodeQueryComponent b).all escapedChar = true := by
  decide

theorem Amass.hex_digit : ∀ n, n < 16 → ishex (upperhex n) = true ∧ unhex (upperhex n) = n := by
  decide

theorem Amass.unescapeChars_plus (rest : List Char) :
    unescapeChars ('+' :: rest) = (unescapeChars rest).map (fun bs => 32 :: bs) := by
  rcases rest with _ | ⟨a, _ | ⟨b, more⟩⟩ <;> simp [unescapeChars]

theorem Amass.unescapeChars_plain (c : Char) (rest : List Char) (h1 : c ≠ '%') (h2 : c ≠ '+') :
    unescapeChars (c :: rest) = (unescapeChars rest).map (fun bs => utf8Bytes c ++ bs) := by
  rcases rest with _ | ⟨a, _ | ⟨b, more⟩⟩ <;> simp [unescapeChars, h1, h2]

theorem Amass.unescapeChars_hex (a b : Char) (rest : List Char) (ha : ishex a = true)
    (hb : ishex b = true) :
    unescapeChars ('%' :: a :: b :: rest) =
      (unescapeChars rest).map (fun bs => (unhex a * 16 + unhex b) :: bs) := by
  simp [unescapeChars, ha, hb]

theorem Amass.unescape_escapeByte (b : Nat) (hb : b < 256) (rest : List Char) :
    unescapeChars (escapeByte encoding.encodeQueryComponent b ++ rest) =
      (unescapeChars rest).map (fun bs => b :: bs) := by
  by_cases hs : shouldEscape b encoding.encodeQueryComponent = true
  · by_cases h32 : b = 32
    · subst h32
      simp [escapeByte, hs, unescapeChars_plus]
    · have h1 := hex_digit (b / 16) (by omega)
      have h2 := hex_digit (b % 16) (by omega)
      have hsum : b / 16 * 16 + b % 16 = b := by omega
      simp [escapeByte, hs, h32, unescapeChars_hex _ _ _ h1.1 h2.1, h1.2, h2.2, hsum]
  · have hs2 : shouldEscape b encoding.encodeQueryComponent = false := by
      simpa using hs
    obtain ⟨hp, hq, hu⟩ := plain_byte b hb hs2
    simp [escapeByte, hs2, unescapeChars_plain _ _ hp hq, hu]

theorem Amass.unescape_escape (bs : List Nat) (h : ∀ b ∈ bs, b < 256) :
    unescapeChars (bs.flatMap (escapeByte encoding.encodeQueryComponent)) = some bs := by
  induction bs with
  | nil => rfl
  | cons b bs ih =>
    have h1 : b < 256 := h b (List.mem_cons_self b bs)
    have h2 := ih (fun x hx => h x (List.mem_cons_of_mem b hx))
    rw [List.flatMap_cons, unescape_escapeByte b h1, h2]
    rfl

theorem Amass.QueryUnescape_QueryEscape (s : String) :
    unescapeChars (QueryEscape s).data = some (bytesOf s) := by
  simp only [QueryEscape, escape, escapeChars]
  exact unescape_escape (bytesOf s) (bytesOf_lt s)

theorem Amass.QueryEscape_escaped (s : String) :
    ∀ c ∈ (QueryEscape s).data, escapedChar c = true := by
  intro c hc
  simp only [QueryEscape, escape, escapeChars, List.mem_flatMap] at hc
  obtain ⟨b, hb, hcb⟩ := hc
  have hb2 : b < 256 := by
    obtain ⟨x, _, hx⟩ := hb
    exact utf8Bytes_lt x b hx
  have hall := escapeByte_escaped b hb2
  rw [List.all_eq_true] at hall
  exact hall c hcb

theorem Amass.QueryEscape_no (s : String) (sep : Char) (hsep : escapedChar sep = false) :
    ∀ c ∈ (QueryEscape s).data, c ≠ sep := by
  intro c hc heq
  have h := QueryEscape_escaped s c hc
  rw [heq, hsep] at h
  exact Bool.false_ne_true h

theorem Amass.cut_append (sep : Char) (pre post : List Char) (h : ∀ c ∈ pre, c ≠ sep) :
    cut sep (pre ++ sep :: post) = (pre, post) := by
  induction pre with
  | nil => simp [cut]
  | cons x xs ih =>
    have hx : x ≠ sep := h x (List.mem_cons_self x xs)
    have ih2 := ih (fun c hc => h c (List.mem_cons_of_mem x hc))
    simp only [cut, Prod.mk.injEq] at ih2
    simp only [cut, List.cons_append, Prod.mk.injEq]
    rw [List.takeWhile_cons_of_pos (by simpa using hx), List.dropWhile_cons_of_pos (by simpa using hx)]
    exact ⟨by rw [ih2.1], ih2.2⟩

theorem Amass.cut_none (sep : Char) (l : List Char) (h : ∀ c ∈ l, c ≠ sep) :
    cut sep l = (l, []) := by
  induction l with
  | nil => simp [cut]
  | cons x xs ih =>
    have hx : x ≠ sep := h x (List.mem_cons_self x xs)
    have ih2 := ih (fun c hc => h c (List.mem_cons_of_mem x hc))
    simp only [cut, Prod.mk.injEq] at ih2
    simp only [cut, Prod.mk.injEq]
    rw [List.takeWhile_cons_of_pos (by simpa using hx), List.dropWhile_cons_of_pos (by simpa using hx)]
    exact ⟨by rw [ih2.1], ih2.2⟩

theorem Amass.splitOn_append (sep : Char) (pre post : List Char) (h : ∀ c ∈ pre, c ≠ sep) :
    ∀ acc, splitOn sep acc (pre ++ sep :: post) = (acc ++ pre) :: splitOn sep [] post := by
  induction pre with
  | nil => intro acc; simp [splitOn]
  | cons x xs ih =>
    intro acc
    have hx : x ≠ sep := h x (List.mem_cons_self x xs)
    have ih2 := ih (fun c hc => h c (List.mem_cons_of_mem x hc)) (acc ++ [x])
    simp only [List.cons_append, splitOn, hx, ↓reduceIte, List.append_eq]
    rw [ih2]
    simp

theorem Amass.splitOn_none (sep : Char) (l : List Char) (h : ∀ c ∈ l, c ≠ sep) :
    ∀ acc, splitOn sep acc l = [acc ++ l] := by
  induction l with
  | nil => intro acc; simp [splitOn]
  | cons x xs ih =>
    intro acc
    have hx : x ≠ sep := h x (List.mem_cons_self x xs)
    have ih2 := ih (fun c hc => h c (List.mem_cons_of_mem x hc)) (acc ++ [x])
    simp only [splitOn, hx, ↓reduceIte]
    rw [ih2]
    simp

theorem Amass.parseSegments_pair (m : ByteValues) (err : Bool) (k v : List Char)
    (key value : List Nat) (segs : List (List Char))
    (hk : ∀ c ∈ k, c ≠ '=' ∧ c ≠ ';') (hv : ∀ c ∈ v, c ≠ ';')
    (hkey : unescapeChars k = some key) (hval : unescapeChars v = some value) :
    parseSegments m err ((k ++ '=' :: v) :: segs) = parseSegments (m.add key value) err segs := by
  have hcut := cut_append '=' k v (fun c hc => (hk c hc).1)
  have hsemi : (k ++ '=' :: v).contains ';' = false := by
    rw [Bool.eq_false_iff]
    intro hc
    simp only [List.contains_iff_exists_mem_beq, List.mem_append, List.mem_cons, beq_iff_eq] at hc
    obtain ⟨c, hc, rfl⟩ := hc
    rcases hc with hc | hc | hc
    · exact (hk _ hc).2 rfl
    · exact absurd hc (by decide)
    · exact hv _ hc rfl
  have hnil : k ++ '=' :: v ≠ [] := by simp
  simp only [parseSegments, hsemi, hnil, hcut, hkey, hval, Bool.false_eq_true, ↓reduceIte]

theorem Amass.no_sep_append (sep : Char) (a b : List Char) (ha : ∀ c ∈ a, c ≠ sep)
    (hb : ∀ c ∈ b, c ≠ sep) : ∀ c ∈ a ++ b, c ≠ sep := by
  intro c hc
  rcases List.mem_append.mp hc with h | h
  · exact ha c h
  · exact hb c h

theorem Amass.query_chars (d t : String) (sep : Char) (hsep : escapedChar sep = false)
    (h1 : ∀ c ∈ "domain=".data, c ≠ sep)
    (h2 : ∀ c ∈ "&include_expired=true&include_subdomains=true".data, c ≠ sep)
    (h3 : ∀ c ∈ "&p=".data, c ≠ sep) :
    ∀ c ∈ "domain=".data ++ (QueryEscape d).data
        ++ "&include_expired=true&include_subdomains=true".data
        ++ (if t ≠ "" then "&p=".data ++ (QueryEscape t).data else []), c ≠ sep := by
  apply no_sep_append
  · apply no_sep_append
    · exact no_sep_append sep _ _ h1 (QueryEscape_no d sep hsep)
    · exact h2
  · by_cases ht : t = ""
    · simp [ht]
    · simp only [ne_eq, ht, not_false_eq_true, ↓reduceIte]
      exact no_sep_append sep _ _ h3 (QueryEscape_no t sep hsep)

theorem Amass.pageURL_data (d t : String) :
    (pageURL d t).data =
      ("https://www.google.com/transparencyreport/api/v3/httpsreport/ct/certsearch".data
        ++ (if t ≠ "" then "/page".data else []))
      ++ '?' :: ("domain=".data ++ (QueryEscape d).data
        ++ "&include_expired=true&include_subdomains=true".data
        ++ (if t ≠ "" then "&p=".data ++ (QueryEscape t).data else [])) := by
  by_cases ht : t = ""
  · subst ht
    simp [pageURL]
  · simp [pageURL, ht]

theorem Amass.rawQueryOf_pageURL (d t : String) :
    (rawQueryOf (pageURL d t)).data =
      "domain=".data ++ (QueryEscape d).data
        ++ "&include_expired=true&include_subdomains=true".data
        ++ (if t ≠ "" then "&p=".data ++ (QueryEscape t).data else []) := by
  have hbase : ∀ sep : Char, sep = '#' ∨ sep = '?' →
      ∀ c ∈ "https://www.google.com/transparencyreport/api/v3/httpsreport/ct/certsearch".data
        ++ (if t ≠ "" then "/page".data else []), c ≠ sep := by
    intro sep hsep
    apply no_sep_append
    · rcases hsep with rfl | rfl <;> decide
    · by_cases ht : t = ""
      · simp [ht]
      · simp only [ne_eq, ht, not_false_eq_true, ↓reduceIte]
        rcases hsep with rfl | rfl <;> decide
  have hq := query_chars d t '#' (by decide) (by decide) (by decide) (by decide)
  have hall : ∀ c ∈ (pageURL d t).data, c ≠ '#' := by
    rw [pageURL_data]
    apply no_sep_append _ _ _ (hbase '#' (Or.inl rfl))
    intro c hc
    rcases List.mem_cons.mp hc with h | h
    · rw [h]; decide
    · exact hq c h
  simp only [rawQueryOf]
  rw [cut_none '#' _ hall]
  simp only []
  rw [pageURL_data, cut_append '?' _ _ (hbase '?' (Or.inr rfl))]

theorem Amass.parse_fixed (m : ByteValues) (err : Bool) (k : String) (segs : List (List Char))
    (hk : ∀ c ∈ k.data, c ≠ '=' ∧ c ≠ ';') (hkey : unescapeChars k.data = some (bytesOf k)) :
    parseSegments m err ((k.data ++ '=' :: "true".data) :: segs) =
      parseSegments (m.add (bytesOf k) (bytesOf "true")) err segs :=
  parseSegments_pair m err k.data "true".data (bytesOf k) (bytesOf "true") segs hk
    (by decide) hkey (by decide)

theorem Amass.parse_escaped (m : ByteValues) (err : Bool) (k v : String)
    (segs : List (List Char))
    (hk : ∀ c ∈ k.data, c ≠ '=' ∧ c ≠ ';') (hkey : unescapeChars k.data = some (bytesOf k)) :
    parseSegments m err ((k.data ++ '=' :: (QueryEscape v).data) :: segs) =
      parseSegments (m.add (bytesOf k) (bytesOf v)) err segs :=
  parseSegments_pair m err k.data (QueryEscape v).data (bytesOf k) (bytesOf v) segs hk
    (QueryEscape_no v ';' (by decide)) hkey (QueryUnescape_QueryEscape v)

theorem Amass.ParseQuery_pageURL (d t : String) :
    ParseQuery (rawQueryOf (pageURL d t)) =
      ([(bytesOf "domain", [bytesOf d]), (bytesOf "include_expired", [bytesOf "true"]),
          (bytesOf "include_subdomains", [bytesOf "true"])]
        ++ (if t ≠ "" then [(bytesOf "p", [bytesOf t])] else []), false) := by
  have hamp : ∀ c ∈ "domain".data ++ '=' :: (QueryEscape d).data, c ≠ '&' := by
    apply no_sep_append _ _ _ (by decide)
    intro c hc
    rcases List.mem_cons.mp hc with h | h
    · rw [h]; decide
    · exact QueryEscape_no d '&' (by decide) c h
  have h12 : bytesOf "domain" ≠ bytesOf "include_expired" := by decide
  have h13 : bytesOf "domain" ≠ bytesOf "include_subdomains" := by decide
  have h23 : bytesOf "include_expired" ≠ bytesOf "include_subdomains" := by decide
  have h14 : bytesOf "domain" ≠ bytesOf "p" := by decide
  have h24 : bytesOf "include_expired" ≠ bytesOf "p" := by decide
  have h34 : bytesOf "include_subdomains" ≠ bytesOf "p" := by decide
  simp only [ParseQuery]
  rw [rawQueryOf_pageURL]
  by_cases ht : t = ""
  · subst ht
    have hq : "domain=".data ++ (QueryEscape d).data
          ++ "&include_expired=true&include_subdomains=true".data
          ++ (if ("" : String) ≠ "" then "&p=".data ++ (QueryEscape "").data else []) =
        ("domain".data ++ '=' :: (QueryEscape d).data)
          ++ '&' :: "include_expired=true&include_subdomains=true".data := by
      simp
    have hs : splitOn '&' [] "include_expired=true&include_subdomains=true".data =
        ["include_expired".data ++ '=' :: "true".data,
          "include_subdomains".data ++ '=' :: "true".data] := by
      decide
    rw [hq, splitOn_append '&' _ _ hamp, hs, List.nil_append,
      parse_escaped _ _ "domain" d _ (by decide) (by decide),
      parse_fixed _ _ "include_expired" _ (by decide) (by decide),
      parse_fixed _ _ "include_subdomains" _ (by decide) (by decide)]
    simp [parseSegments, ByteValues.add, h12, h13, h23]
  · have hamp4 : ∀ c ∈ "p".data ++ '=' :: (QueryEscape t).data, c ≠ '&' := by
      apply no_sep_append _ _ _ (by decide)
      intro c hc
      rcases List.mem_cons.mp hc with h | h
      · rw [h]; decide
      · exact QueryEscape_no t '&' (by decide) c h
    have hq : "domain=".data ++ (QueryEscape d).data
          ++ "&include_expired=true&include_subdomains=true".data
          ++ (if t ≠ "" then "&p=".data ++ (QueryEscape t).data else []) =
        ("domain".data ++ '=' :: (QueryEscape d).data)
          ++ '&' :: (("include_expired".data ++ '=' :: "true".data)
          ++ '&' :: (("include_subdomains".data ++ '=' :: "true".data)
          ++ '&' :: ("p".data ++ '=' :: (QueryEscape t).data))) := by
      simp [ht]
    rw [hq, splitOn_append '&' _ _ hamp, splitOn_append '&' _ _ (by decide),
      splitOn_append '&' _ _ (by decide), splitOn_none '&' _ hamp4]
    simp only [List.nil_append]
    rw [parse_escaped _ _ "domain" d _ (by decide) (by decide),
      parse_fixed _ _ "include_expired" _ (by decide) (by decide),
      parse_fixed _ _ "include_subdomains" _ (by decide) (by decide),
      parse_escaped _ _ "p" t _ (by decide) (by decide)]
    simp [parseSegments, ByteValues.add, h12, h13, h23, h14, h24, h34, ht]

/-- C14: for every domain `d` and token `t`, `getURL d t` is built without
failure, and reading its query string back with `url.ParseQuery` reports no
error and yields exactly the parameters `domain`, `include_expired` and
`include_subdomains`, and `p` exactly when `t` is not empty, each with one
value whose bytes are those of `d`, of `true`, of `true` and of `t`. -/
theorem Amass.query_roundtrip (cert d t : String) :
    ∃ u, (NewGoogleCT cert).getURL d t = some u
      ∧ ParseQuery (rawQueryOf u) =
        ([(bytesOf "domain", [bytesOf d]), (bytesOf "include_expired", [bytesOf "true"]),
            (bytesOf "include_subdomains", [bytesOf "true"])]
          ++ (if t ≠ "" then [(bytesOf "p", [bytesOf t])] else []), false) :=
  ⟨pageURL d t, getURL_eq_pageURL cert d t, ParseQuery_pageURL d t⟩


/-! ## The token pattern: the preferred match -/

theorem Amass.head_flatMap {α β : Type} (f : α → List β) (xs : List α) (x : α) (y : β)
    (hx : xs.head? = some x) (hy : (f x).head? = some y) : (xs.flatMap f).head? = some y := by
  cases xs with
  | nil => simp at hx
  | cons a as =>
    simp only [List.head?_cons, Option.some.injEq] at hx
    subst hx
    cases hfa : f a with
    | nil => simp [hfa] at hy
    | cons b bs =>
      simp only [hfa, List.head?_cons, Option.some.injEq] at hy
      subst hy
      simp [List.flatMap_cons, hfa]

theorem Amass.head_cat (a b : Regex) (st m r : MState) (ha : (a.run st).head? = some m)
    (hb : (b.run m).head? = some r) : ((Regex.cat a b).run st).head? = some r := by
  simp only [Regex.run]
  exact head_flatMap b.run (a.run st) m r ha hb

theorem Amass.head_lit (c : Char) (s : List Char) (cp : Caps) :
    ((Regex.lit c).run (c :: s, cp)).head? = some (s, cp) := by
  simp [Regex.run]

theorem Amass.head_lits (cs : List Char) (s : List Char) (cp : Caps) :
    ((Regex.lits cs).run (cs ++ s, cp)).head? = some (s, cp) := by
  induction cs with
  | nil => simp [Regex.lits, Regex.run]
  | cons c cs ih =>
    cases cs with
    | nil => simp [Regex.lits, Regex.run]
    | cons c2 cs2 =>
      have h1 := head_lit c (c2 :: cs2 ++ s) cp
      have h := head_cat (Regex.lit c) (Regex.lits (c2 :: cs2)) (c :: (c2 :: cs2 ++ s), cp)
        (c2 :: cs2 ++ s, cp) (s, cp) h1 ih
      simpa [Regex.lits] using h

theorem Amass.head_cap (i : Nat) (a : Regex) (st r : MState) (ha : (a.run st).head? = some r) :
    ((Regex.cap i a).run st).head? =
      some (r.1, r.2.set i (st.1.take (st.1.length - r.1.length))) := by
  simp only [Regex.run]
  cases h : a.run st with
  | nil => simp [h] at ha
  | cons x xs =>
    simp only [h, List.head?_cons, Option.some.injEq] at ha
    subst ha
    simp

theorem Amass.head_alt_left (a b : Regex) (st r : MState) (ha : (a.run st).head? = some r) :
    ((Regex.alt a b).run st).head? = some r := by
  simp only [Regex.run]
  cases h : a.run st with
  | nil => simp [h] at ha
  | cons x xs =>
    simp only [h, List.head?_cons, Option.some.injEq] at ha
    subst ha
    simp

theorem Amass.head_alt_right (a b : Regex) (st : MState) (ha : a.run st = []) :
    ((Regex.alt a b).run st).head? = (b.run st).head? := by
  simp [Regex.run, ha]

theorem Amass.plusIter_nil (step : MState → List MState) (n : Nat) (st : MState)
    (h : step st = []) : plusIter step n st = [] := by
  cases n with
  | zero => simpa [plusIter] using h
  | succ n => simp [plusIter, h]

theorem Amass.cls_run_cons (rs : List (Char × Char)) (c : Char) (s : List Char) (cp : Caps)
    (h : inRanges rs c = true) : (Regex.cls rs).run (c :: s, cp) = [(s, cp)] := by
  simp [Regex.run, h]

theorem Amass.cls_run_stop (rs : List (Char × Char)) (s : List Char) (cp : Caps)
    (h : ∀ c r, s = c :: r → inRanges rs c = false) : (Regex.cls rs).run (s, cp) = [] := by
  cases s with
  | nil => simp [Regex.run]
  | cons c r => simp [Regex.run, h c r rfl]

theorem Amass.head_plusIter (rs : List (Char × Char)) (rest : List Char) (cp : Caps)
    (hrest : ∀ c r, rest = c :: r → inRanges rs c = false) (w : List Char) :
    ∀ n, w ≠ [] → (∀ c ∈ w, inRanges rs c = true) → w.length ≤ n + 1 →
      (plusIter (Regex.cls rs).run n (w ++ rest, cp)).head? = some (rest, cp) := by
  induction w with
  | nil => intro n h; exact absurd rfl h
  | cons c w ih =>
    intro n _ hall hlen
    have hc : inRanges rs c = true := hall c (List.mem_cons_self c w)
    cases w with
    | nil =>
      have hstep := cls_run_cons rs c rest cp hc
      cases n with
      | zero => simp [plusIter, hstep]
      | succ n =>
        have hn := plusIter_nil (Regex.cls rs).run n (rest, cp) (cls_run_stop rs rest cp hrest)
        simp [plusIter, hstep, hn]
    | cons c2 w2 =>
      have hstep := cls_run_cons rs c (c2 :: (w2 ++ rest)) cp hc
      cases n with
      | zero => simp at hlen
      | succ n =>
        have ih2 := ih n (by simp) (fun x hx => hall x (List.mem_cons_of_mem c hx))
          (by simp at hlen ⊢; omega)
        simp only [List.cons_append] at ih2
        cases hp : plusIter (Regex.cls rs).run n (c2 :: (w2 ++ rest), cp) with
        | nil => simp [hp] at ih2
        | cons y ys =>
          simp only [hp, List.head?_cons, Option.some.injEq] at ih2
          subst ih2
          simp [plusIter, hstep, hp]

theorem Amass.head_plus (rs : List (Char × Char)) (w rest : List Char) (cp : Caps)
    (hw : w ≠ []) (hall : ∀ c ∈ w, inRanges rs c = true)
    (hrest : ∀ c r, rest = c :: r → inRanges rs c = false) :
    ((Regex.plus (Regex.cls rs)).run (w ++ rest, cp)).head? = some (rest, cp) := by
  simp only [Regex.run]
  exact head_plusIter rs rest cp hrest w _ hw hall (by simp; omega)

theorem Amass.take_consumed (w r : List Char) :
    (w ++ r).take ((w ++ r).length - r.length) = w := by
  simp

theorem Amass.head_cap_plus (i : Nat) (rs : List (Char × Char)) (w rest : List Char)
    (cp : Caps) (hw : w ≠ []) (hall : ∀ c ∈ w, inRanges rs c = true)
    (hrest : ∀ c r, rest = c :: r → inRanges rs c = false) :
    ((Regex.cap i (Regex.plus (Regex.cls rs))).run (w ++ rest, cp)).head? =
      some (rest, cp.set i w) := by
  have h := head_cap i (Regex.plus (Regex.cls rs)) (w ++ rest, cp) (rest, cp)
    (head_plus rs w rest cp hw hall hrest)
  simpa using h

theorem Amass.inRanges_alnum (c : Char) :
    inRanges [('a', 'z'), ('A', 'Z'), ('0', '9')] c = isAlnum c.toNat := by
  simp [inRanges, isAlnum, Bool.or_assoc]

theorem Amass.inRanges_digit (c : Char) :
    inRanges [('0', '9')] c = (decide (48 ≤ c.toNat) && decide (c.toNat ≤ 57)) := by
  simp [inRanges]

theorem Amass.alnum_all (s : String) (h : alnumText s) :
    ∀ c ∈ s.data, inRanges [('a', 'z'), ('A', 'Z'), ('0', '9')] c = true := by
  intro c hc
  rw [inRanges_alnum]
  exact List.all_eq_true.mp h c hc

theorem Amass.digit_all (s : String) (h : digitText s) :
    ∀ c ∈ s.data, inRanges [('0', '9')] c = true := by
  intro c hc
  rw [inRanges_digit]
  exact List.all_eq_true.mp h c hc

theorem Amass.data_ne_nil (s : String) (h : s ≠ "") : s.data ≠ [] := by
  intro hd
  apply h
  apply String.ext
  simpa using hd

theorem Amass.head_cap_consumed (i : Nat) (a : Regex) (w rest : List Char) (cp cp2 : Caps)
    (ha : (a.run (w ++ rest, cp)).head? = some (rest, cp2)) :
    ((Regex.cap i a).run (w ++ rest, cp)).head? = some (rest, cp2.set i w) := by
  have h := head_cap i a (w ++ rest, cp) (rest, cp2) ha
  simpa using h

theorem Amass.head_first_group (g1 : String) (rest : List Char) (cp : Caps)
    (hg : g1 = "null" ∨ ∃ q : String, q ≠ "" ∧ alnumText q ∧ g1 = "\"" ++ q ++ "\"") :
    ((Regex.cap 1
        (Regex.alt (Regex.lits "null".data)
          (Regex.seq [Regex.lit '"', Regex.plus alnumClass, Regex.lit '"']))).run
        (g1.data ++ rest, cp)).head? = some (rest, cp.set 1 g1.data) := by
  rcases hg with rfl | ⟨q, hq, hqa, rfl⟩
  · have h1 := head_lits "null".data rest cp
    have h2 := head_alt_left (Regex.lits "null".data)
      (Regex.seq [Regex.lit '"', Regex.plus alnumClass, Regex.lit '"']) _ _ h1
    exact head_cap_consumed 1 _ _ _ _ _ h2
  · have hdata : ("\"" ++ q ++ "\"" : String).data = '"' :: (q.data ++ ['"']) := by
      simp
    have hsplit : ('"' :: (q.data ++ ['"'])) ++ rest = '"' :: (q.data ++ '"' :: rest) := by
      simp
    rw [hdata]
    have hleft : (Regex.lits "null".data).run ('"' :: (q.data ++ '"' :: rest), cp) = [] := by
      simp [Regex.lits, Regex.run]
    have h0 := head_lit '"' (q.data ++ '"' :: rest) cp
    have h1 := head_plus [('a', 'z'), ('A', 'Z'), ('0', '9')] q.data ('"' :: rest) cp
      (data_ne_nil q hq) (alnum_all q hqa)
      (by intro c r h; simp only [List.cons.injEq] at h; rw [← h.1]; decide)
    have h2 := head_lit '"' rest cp
    have h3 := head_cat (Regex.plus alnumClass) (Regex.lit '"') _ _ _ h1 h2
    have h4 := head_cat (Regex.lit '"') (Regex.cat (Regex.plus alnumClass) (Regex.lit '"'))
      _ _ _ h0 h3
    have h5 : ((Regex.alt (Regex.lits "null".data)
        (Regex.seq [Regex.lit '"', Regex.plus alnumClass, Regex.lit '"'])).run
        (('"' :: (q.data ++ ['"'])) ++ rest, cp)).head? = some (rest, cp) := by
      rw [hsplit, head_alt_right _ _ _ hleft]
      exact h4
    exact head_cap_consumed 1 _ _ _ _ _ h5

theorem Amass.head_tokenPattern (g1 t a b : String) (hwf : WellFormed g1 t a b)
    (post : List Char) :
    (tokenPattern.run ((occurrence g1 t a b).data ++ post, List.replicate 5 [])).head? =
      some (post, [[], g1.data, t.data, a.data, b.data]) := by
  obtain ⟨hg, ht, hta, ha, had, hb, hbd⟩ := hwf
  have hdata : (occurrence g1 t a b).data ++ post =
      '[' :: (g1.data ++ (",\"".data ++ (t.data ++ ("\",null,".data
        ++ (a.data ++ ',' :: (b.data ++ ']' :: post)))))) := by
    simp [occurrence]
  rw [hdata]
  have H8 := head_lit ']' post ((((List.replicate 5 ([] : List Char)).set 1 g1.data).set 2
    t.data).set 3 a.data |>.set 4 b.data)
  have H7 := head_cap_plus 4 [('0', '9')] b.data (']' :: post)
    (((List.replicate 5 ([] : List Char)).set 1 g1.data).set 2 t.data |>.set 3 a.data)
    (data_ne_nil b hb) (digit_all b hbd)
    (by intro c r h; simp only [List.cons.injEq] at h; rw [← h.1]; decide)
  have T7 := head_cat (Regex.cap 4 (Regex.plus digitClass)) (Regex.lit ']') _ _ _ H7 H8
  have H6 := head_lit ',' (b.data ++ ']' :: post)
    (((List.replicate 5 ([] : List Char)).set 1 g1.data).set 2 t.data |>.set 3 a.data)
  have T6 := head_cat (Regex.lit ',') _ _ _ _ H6 T7
  have H5 := head_cap_plus 3 [('0', '9')] a.data (',' :: (b.data ++ ']' :: post))
    (((List.replicate 5 ([] : List Char)).set 1 g1.data).set 2 t.data)
    (data_ne_nil a ha) (digit_all a had)
    (by intro c r h; simp only [List.cons.injEq] at h; rw [← h.1]; decide)
  have T5 := head_cat (Regex.cap 3 (Regex.plus digitClass)) _ _ _ _ H5 T6
  have H4 := head_lits "\",null,".data (a.data ++ ',' :: (b.data ++ ']' :: post))
    (((List.replicate 5 ([] : List Char)).set 1 g1.data).set 2 t.data)
  have T4 := head_cat (Regex.lits "\",null,".data) _ _ _ _ H4 T5
  have H3 := head_cap_plus 2 [('a', 'z'), ('A', 'Z'), ('0', '9')] t.data
    ("\",null,".data ++ (a.data ++ ',' :: (b.data ++ ']' :: post)))
    ((List.replicate 5 ([] : List Char)).set 1 g1.data)
    (data_ne_nil t ht) (alnum_all t hta)
    (by intro c r h; simp only [String.data, List.cons_append, List.cons.injEq] at h
        rw [← h.1]; decide)
  have T3 := head_cat (Regex.cap 2 (Regex.plus alnumClass)) _ _ _ _ H3 T4
  have H2 := head_lits ",\"".data (t.data ++ ("\",null,".data
    ++ (a.data ++ ',' :: (b.data ++ ']' :: post))))
    ((List.replicate 5 ([] : List Char)).set 1 g1.data)
  have T2 := head_cat (Regex.lits ",\"".data) _ _ _ _ H2 T3
  have H1 := head_first_group g1 (",\"".data ++ (t.data ++ ("\",null,".data
    ++ (a.data ++ ',' :: (b.data ++ ']' :: post))))) (List.replicate 5 ([] : List Char)) hg
  have T1 := head_cat _ _ _ _ _ H1 T2
  have H0 := head_lit '[' (g1.data ++ (",\"".data ++ (t.data ++ ("\",null,".data
    ++ (a.data ++ ',' :: (b.data ++ ']' :: post)))))) (List.replicate 5 ([] : List Char))
  have T0 := head_cat (Regex.lit '[') _ _ _ _ H0 T1
  exact T0

theorem Amass.search_skip (re : Regex) (init : Caps) (s : List Char) (pre : List Char) :
    (∀ i, i < pre.length → re.run ((pre ++ s).drop i, init) = []) →
      re.search init (pre ++ s) = re.search init s := by
  induction pre with
  | nil => intro _; rfl
  | cons x xs ih =>
    intro h
    have h0 := h 0 (by simp)
    simp only [List.drop_zero, List.cons_append] at h0
    have hrest : ∀ i, i < xs.length → re.run ((xs ++ s).drop i, init) = [] := by
      intro i hi
      have := h (i + 1) (by simp; omega)
      simpa using this
    rw [List.cons_append, Regex.search, h0]
    exact ih hrest

theorem Amass.search_head (re : Regex) (init : Caps) (s : List Char) (r : MState)
    (h : (re.run (s, init)).head? = some r) : re.search init s = some (s, r) := by
  cases hrun : re.run (s, init) with
  | nil => simp [hrun] at h
  | cons y ys =>
    simp only [hrun, List.head?_cons, Option.some.injEq] at h
    subst h
    cases s with
    | nil => simp [Regex.search, hrun]
    | cons c cs => simp [Regex.search, hrun]

theorem Amass.find_occurrence (pre post g1 t a b : String) (hwf : WellFormed g1 t a b)
    (hleft : ∀ i, i < pre.length →
      tokenPattern.run ((pre ++ occurrence g1 t a b ++ post).data.drop i, List.replicate 5 []) = []) :
    tokenPattern.FindStringSubmatch (pre ++ occurrence g1 t a b ++ post) =
      [occurrence g1 t a b, g1, t, a, b] := by
  have hdata : (pre ++ occurrence g1 t a b ++ post).data =
      pre.data ++ ((occurrence g1 t a b).data ++ post.data) := by
    simp
  have hnum : tokenPattern.NumSubexp + 1 = 5 := by decide
  have hskip := search_skip tokenPattern (List.replicate 5 [])
    ((occurrence g1 t a b).data ++ post.data) pre.data
    (by
      intro i hi
      have := hleft i hi
      rw [hdata] at this
      exact this)
  have hhead := search_head tokenPattern (List.replicate 5 [])
    ((occurrence g1 t a b).data ++ post.data) _ (head_tokenPattern g1 t a b hwf post.data)
  unfold Regex.FindStringSubmatch
  rw [hnum, hdata, hskip, hhead]
  simp

/-- C15: when a page is fetched that holds a well-formed continuation
structure `[g1,"t",null,a,b]` before which the token pattern matches nowhere
(the leftmost occurrence), the token scan returns this occurrence whatever
follows it in the page, later occurrences included; the decision is taken on
its counters alone: the loop stops when `a` and `b` are the same digits, and
otherwise goes on and fetches the next page with its token `t`. -/
theorem Amass.leftmost_occurrence_decides (cert : String) (web : Web) (re : DomainRegexp)
    (req : DNSRequest) (fuel n : Nat) (tok pre post g1 t a b : String)
    (hwf : WellFormed g1 t a b)
    (hleft : ∀ i, i < pre.length →
      tokenPattern.run ((pre ++ occurrence g1 t a b ++ post).data.drop i, List.replicate 5 []) = [])
    (hweb : web n (pageURL req.Domain tok) = Except.ok (pre ++ occurrence g1 t a b ++ post)) :
    (NewGoogleCT cert).tokenRE.FindStringSubmatch (pre ++ occurrence g1 t a b ++ post) =
        [occurrence g1 t a b, g1, t, a, b]
      ∧ (NewGoogleCT cert).nextToken (pre ++ occurrence g1 t a b ++ post) =
        (if a ≠ b then t else "")
      ∧ (a = b → (NewGoogleCT cert).loop web re req (fuel + 1) n tok =
          { trace := (NewGoogleCT cert).active
              :: Effect.RequestWebPage (pageURL req.Domain tok) headers
              :: (NewGoogleCT cert).names re req (pre ++ occurrence g1 t a b ++ post),
            status := Status.returned })
      ∧ (a ≠ b → ∃ rest, ((NewGoogleCT cert).loop web re req (fuel + 2) n tok).trace =
          (NewGoogleCT cert).active :: Effect.RequestWebPage (pageURL req.Domain tok) headers
            :: (NewGoogleCT cert).names re req (pre ++ occurrence g1 t a b ++ post)
            ++ Effect.CheckRateLimit :: (NewGoogleCT cert).active
            :: Effect.RequestWebPage (pageURL req.Domain t) headers :: rest) := by
  have hfind : (NewGoogleCT cert).tokenRE.FindStringSubmatch
      (pre ++ occurrence g1 t a b ++ post) = [occurrence g1 t a b, g1, t, a, b] :=
    find_occurrence pre post g1 t a b hwf hleft
  have hnext := nextToken_of_match cert _ _ _ _ _ _ hfind
  refine ⟨hfind, hnext, ?_, ?_⟩
  · intro hab
    have hstop : (NewGoogleCT cert).nextToken (pre ++ occurrence g1 t a b ++ post) = "" := by
      rw [hnext]
      simp [hab]
    exact loop_succ_stop cert web re req fuel n tok _ hweb hstop
  · intro hab
    have hgo : (NewGoogleCT cert).nextToken (pre ++ occurrence g1 t a b ++ post) = t := by
      rw [hnext]
      simp [hab]
    obtain ⟨rest, hrest⟩ := loop_head cert web re req fuel (n + 1) t
    refine ⟨rest, ?_⟩
    rw [loop_succ_continue cert web re req (fuel + 1) n tok _ hweb
      (by rw [hgo]; exact hwf.2.1), hgo]
    simp [Outcome.after, hrest]

/-- Witness of C15: in `pageStopFirst` the leftmost structure has the
counters 7 and 7 and a later one 3 and 10, and the scan stops on the first;
in `pageGoFirst` the leftmost has 3 and 10 and a later one 7 and 7, and the
token `first` of the leftmost is kept. -/
theorem Amass.leftmost_occurrence_decides_witness :
    ((NewGoogleCT "cert").tokenRE.FindStringSubmatch pageStopFirst =
        [occurrence "null" "first" "7" "7", "null", "first", "7", "7"]
      ∧ (NewGoogleCT "cert").nextToken pageStopFirst = (if "7" ≠ "7" then "first" else ""))
    ∧ ((NewGoogleCT "cert").tokenRE.FindStringSubmatch pageGoFirst =
        [occurrence "\"q1\"" "first" "3" "10", "\"q1\"", "first", "3", "10"]
      ∧ (NewGoogleCT "cert").nextToken pageGoFirst = (if "3" ≠ "10" then "first" else "")) :=
  ⟨⟨(leftmost_occurrence_decides "cert" stopFirstWeb sampleRe sampleReq 0 0 "" "x[y "
        (" " ++ occurrence "null" "second" "3" "10") "null" "first" "7" "7"
        ⟨Or.inl rfl, by decide, by unfold alnumText; decide, by decide,
          by unfold digitText; decide, by decide, by unfold digitText; decide⟩
        (by decide) rfl).1,
      (leftmost_occurrence_decides "cert" stopFirstWeb sampleRe sampleReq 0 0 "" "x[y "
        (" " ++ occurrence "null" "second" "3" "10") "null" "first" "7" "7"
        ⟨Or.inl rfl, by decide, by unfold alnumText; decide, by decide,
          by unfold digitText; decide, by decide, by unfold digitText; decide⟩
        (by decide) rfl).2.1⟩,
    ⟨(leftmost_occurrence_decides "cert" goFirstWeb sampleRe sampleReq 0 0 "" "x[y "
        (" " ++ occurrence "null" "second" "7" "7") "\"q1\"" "first" "3" "10"
        ⟨Or.inr ⟨"q1", by decide, by unfold alnumText; decide, rfl⟩, by decide,
          by unfold alnumText; decide, by decide,
          by unfold digitText; decide, by decide, by unfold digitText; decide⟩
        (by decide) rfl).1,
      (leftmost_occurrence_decides "cert" goFirstWeb sampleRe sampleReq 0 0 "" "x[y "
        (" " ++ occurrence "null" "second" "7" "7") "\"q1\"" "first" "3" "10"
        ⟨Or.inr ⟨"q1", by decide, by unfold alnumText; decide, rfl⟩, by decide,
          by unfold alnumText; decide, by decide,
          by unfold digitText; decide, by decide, by unfold digitText; decide⟩
        (by decide) rfl).2.1⟩⟩

/-! ## The token pattern: what any match captures -/

theorem Amass.Follows_trans (j : Nat) (k1 k2 : Bool) (a b c : MState)
    (h1 : Follows j k1 a b) (h2 : Follows j k2 b c) : Follows j (k1 && k2) a c := by
  obtain ⟨⟨w1, hw1⟩, hl1, hk1⟩ := h1
  obtain ⟨⟨w2, hw2⟩, hl2, hk2⟩ := h2
  refine ⟨⟨w1 ++ w2, by rw [hw1, hw2, List.append_assoc]⟩, by rw [hl2, hl1], ?_⟩
  intro hk
  simp only [Bool.and_eq_true] at hk
  rw [hk2 hk.2, hk1 hk.1]

theorem Amass.Follows_weaken (j : Nat) (k : Bool) (a b : MState) (h : Follows j true a b) :
    Follows j k a b :=
  ⟨h.1, h.2.1, fun _ => h.2.2 rfl⟩

theorem Amass.plusIter_follows (j : Nat) (k : Bool) (step : MState → List MState)
    (hstep : ∀ st r, r ∈ step st → Follows j k st r) :
    ∀ n st r, r ∈ plusIter step n st → Follows j k st r := by
  intro n
  induction n with
  | zero => intro st r hr; exact hstep st r (by simpa [plusIter] using hr)
  | succ n ih =>
    intro st r hr
    simp only [plusIter, List.mem_flatMap, List.mem_append, List.mem_singleton] at hr
    obtain ⟨m, hm, hr⟩ := hr
    rcases hr with hr | hr
    · by_cases hlt : m.1.length < st.1.length
      · simp only [hlt, ↓reduceIte] at hr
        have h := Follows_trans j k k st m r (hstep st m hm) (ih m r hr)
        simpa using h
      · simp [hlt] at hr
    · rw [hr]
      exact hstep st m hm

theorem Amass.run_follows (j : Nat) (re : Regex) :
    ∀ st r, r ∈ re.run st → Follows j (decide (j ∉ re.groups)) st r := by
  induction re with
  | empty =>
    intro st r hr
    simp only [Regex.run, List.mem_singleton] at hr
    rw [hr]
    exact ⟨⟨[], rfl⟩, rfl, fun _ => rfl⟩
  | lit c =>
    intro st r hr
    obtain ⟨s, cp⟩ := st
    cases s with
    | nil => simp [Regex.run] at hr
    | cons x xs =>
      by_cases hx : x = c
      · simp only [Regex.run, hx, ↓reduceIte, List.mem_singleton] at hr
        rw [hr]
        exact ⟨⟨[x], by simp⟩, rfl, fun _ => rfl⟩
      · simp [Regex.run, hx] at hr
  | cls rs =>
    intro st r hr
    obtain ⟨s, cp⟩ := st
    cases s with
    | nil => simp [Regex.run] at hr
    | cons x xs =>
      by_cases hx : inRanges rs x = true
      · simp only [Regex.run, hx, ↓reduceIte, List.mem_singleton] at hr
        rw [hr]
        exact ⟨⟨[x], by simp⟩, rfl, fun _ => rfl⟩
      · simp [Regex.run, hx] at hr
  | cat a b iha ihb =>
    intro st r hr
    simp only [Regex.run, List.mem_flatMap] at hr
    obtain ⟨m, hm, hr⟩ := hr
    have h := Follows_trans j _ _ st m r (iha st m hm) (ihb m r hr)
    have hk : (decide (j ∉ a.groups) && decide (j ∉ b.groups)) =
        decide (j ∉ (Regex.cat a b).groups) := by
      simp [Regex.groups, not_or]
    rw [← hk]
    exact h
  | alt a b iha ihb =>
    intro st r hr
    simp only [Regex.run, List.mem_append] at hr
    rcases hr with hr | hr
    · have h := iha st r hr
      refine ⟨h.1, h.2.1, fun hk => h.2.2 ?_⟩
      simp only [Regex.groups, List.mem_append, not_or, decide_eq_true_eq] at hk ⊢
      exact hk.1
    · have h := ihb st r hr
      refine ⟨h.1, h.2.1, fun hk => h.2.2 ?_⟩
      simp only [Regex.groups, List.mem_append, not_or, decide_eq_true_eq] at hk ⊢
      exact hk.2
  | plus a iha =>
    intro st r hr
    simp only [Regex.run] at hr
    exact plusIter_follows j _ a.run iha _ st r hr
  | cap i a iha =>
    intro st r hr
    simp only [Regex.run, List.mem_map] at hr
    obtain ⟨m, hm, hr⟩ := hr
    have h := iha st m hm
    rw [← hr]
    refine ⟨h.1, by simpa using h.2.1, ?_⟩
    intro hk
    simp only [Regex.groups, List.mem_cons, not_or, decide_eq_true_eq] at hk
    have hji : i ≠ j := fun e => hk.1 e.symm
    have h2 := h.2.2 (by simpa using hk.2)
    simp only [List.getD_eq_getElem?_getD] at h2 ⊢
    rw [List.getElem?_set_ne hji]
    exact h2

theorem Amass.plusIter_cls (rs : List (Char × Char)) :
    ∀ n st r, r ∈ plusIter (Regex.cls rs).run n st →
      ∃ w, w ≠ [] ∧ (∀ c ∈ w, inRanges rs c = true) ∧ st.1 = w ++ r.1 ∧ r.2 = st.2 := by
  have hstep : ∀ st r, r ∈ (Regex.cls rs).run st →
      ∃ w, w ≠ [] ∧ (∀ c ∈ w, inRanges rs c = true) ∧ st.1 = w ++ r.1 ∧ r.2 = st.2 := by
    intro st r hr
    obtain ⟨s, cp⟩ := st
    cases s with
    | nil => simp [Regex.run] at hr
    | cons x xs =>
      by_cases hx : inRanges rs x = true
      · simp only [Regex.run, hx, ↓reduceIte, List.mem_singleton] at hr
        rw [hr]
        exact ⟨[x], by simp, by simpa using hx, by simp, rfl⟩
      · simp [Regex.run, hx] at hr
  intro n
  induction n with
  | zero => intro st r hr; exact hstep st r (by simpa [plusIter] using hr)
  | succ n ih =>
    intro st r hr
    simp only [plusIter, List.mem_flatMap, List.mem_append, List.mem_singleton] at hr
    obtain ⟨m, hm, hr⟩ := hr
    rcases hr with hr | hr
    · by_cases hlt : m.1.length < st.1.length
      · simp only [hlt, ↓reduceIte] at hr
        obtain ⟨w1, hw1, ha1, hs1, hc1⟩ := hstep st m hm
        obtain ⟨w2, _, ha2, hs2, hc2⟩ := ih m r hr
        refine ⟨w1 ++ w2, by simp [hw1], ?_, by rw [hs1, hs2, List.append_assoc], by
          rw [hc2, hc1]⟩
        intro c hc
        rcases List.mem_append.mp hc with h | h
        · exact ha1 c h
        · exact ha2 c h
      · simp [hlt] at hr
    · rw [hr]
      exact hstep st m hm

theorem Amass.mem_cat (a b : Regex) (st r : MState) :
    r ∈ (Regex.cat a b).run st ↔ ∃ m, m ∈ a.run st ∧ r ∈ b.run m := by
  simp only [Regex.run, List.mem_flatMap]

theorem Amass.mem_cap_plus (i : Nat) (rs : List (Char × Char)) (st r : MState)
    (h : r ∈ (Regex.cap i (Regex.plus (Regex.cls rs))).run st) :
    ∃ w rest, w ≠ [] ∧ (∀ c ∈ w, inRanges rs c = true) ∧ st.1 = w ++ rest
      ∧ r = (rest, st.2.set i w) := by
  simp only [Regex.run, List.mem_map] at h
  obtain ⟨m, hm, hr⟩ := h
  obtain ⟨w, hw, hall, hs, hc⟩ := plusIter_cls rs _ st m hm
  refine ⟨w, m.1, hw, hall, hs, ?_⟩
  rw [← hr, hc, hs]
  simp

theorem Amass.tokenPattern_match (s : List Char) (r : MState)
    (hr : r ∈ tokenPattern.run (s, List.replicate 5 [])) :
    r.2.length = 5
      ∧ r.2.getD 2 [] ≠ []
      ∧ (∀ c ∈ r.2.getD 2 [], isAlnum c.toNat = true)
      ∧ ∃ p q, s = p ++ r.2.getD 2 [] ++ q := by
  have hpat : tokenPattern =
      Regex.cat (Regex.lit '[')
        (Regex.cat
          (Regex.cap 1
            (Regex.alt (Regex.lits "null".data)
              (Regex.seq [Regex.lit '"', Regex.plus alnumClass, Regex.lit '"'])))
          (Regex.cat (Regex.lits ",\"".data)
            (Regex.cat (Regex.cap 2 (Regex.plus alnumClass))
              (Regex.seq
                [Regex.lits "\",null,".data, Regex.cap 3 (Regex.plus digitClass), Regex.lit ',',
                  Regex.cap 4 (Regex.plus digitClass), Regex.lit ']'])))) := rfl
  rw [hpat] at hr
  obtain ⟨s1, h1, hr⟩ := (mem_cat _ _ _ _).mp hr
  obtain ⟨s2, h2, hr⟩ := (mem_cat _ _ _ _).mp hr
  obtain ⟨s3, h3, hr⟩ := (mem_cat _ _ _ _).mp hr
  obtain ⟨s4, h4, hr⟩ := (mem_cat _ _ _ _).mp hr
  have f1 := run_follows 2 _ _ _ h1
  have f2 := run_follows 2 _ _ _ h2
  have f3 := run_follows 2 _ _ _ h3
  have f5 := run_follows 2 _ _ _ hr
  obtain ⟨w, rest, hw, hall, hs3, hs4⟩ := mem_cap_plus 2 _ s3 s4 h4
  have hlen3 : s3.2.length = 5 := by
    rw [f3.2.1, f2.2.1, f1.2.1]
    simp
  have hget4 : s4.2.getD 2 [] = w := by
    rw [hs4]
    simp only [List.getD_eq_getElem?_getD]
    rw [List.getElem?_set_self (by omega)]
    rfl
  have hkeep : r.2.getD 2 [] = w := by
    rw [f5.2.2 (by decide), hget4]
  have hlen : r.2.length = 5 := by
    rw [f5.2.1, hs4]
    simpa using hlen3
  obtain ⟨w1, e1⟩ := f1.1
  obtain ⟨w2, e2⟩ := f2.1
  obtain ⟨w3, e3⟩ := f3.1
  refine ⟨hlen, by rw [hkeep]; exact hw, ?_, ?_⟩
  · intro c hc
    rw [hkeep] at hc
    have := hall c hc
    rwa [inRanges_alnum] at this
  · refine ⟨w1 ++ w2 ++ w3, rest, ?_⟩
    rw [hkeep]
    simp only [] at e1
    rw [e1, e2, e3, hs3]
    simp

theorem Amass.search_sound (re : Regex) (init : Caps) (s : List Char) :
    ∀ start r, re.search init s = some (start, r) →
      (∃ p, s = p ++ start) ∧ r ∈ re.run (start, init) := by
  induction s with
  | nil =>
    intro start r h
    cases hrun : re.run ([], init) with
    | nil => simp [Regex.search, hrun] at h
    | cons y ys =>
      simp only [Regex.search, hrun, Option.some.injEq, Prod.mk.injEq] at h
      rw [← h.1, ← h.2, hrun]
      exact ⟨⟨[], rfl⟩, List.mem_cons_self y ys⟩
  | cons x xs ih =>
    intro start r h
    cases hrun : re.run (x :: xs, init) with
    | nil =>
      simp only [Regex.search, hrun] at h
      obtain ⟨⟨p, hp⟩, hr⟩ := ih start r h
      exact ⟨⟨x :: p, by rw [hp]; rfl⟩, hr⟩
    | cons y ys =>
      simp only [Regex.search, hrun, Option.some.injEq, Prod.mk.injEq] at h
      rw [← h.1, ← h.2, hrun]
      exact ⟨⟨[], rfl⟩, List.mem_cons_self y ys⟩

theorem Amass.nextToken_sound (cert page : String)
    (h : (NewGoogleCT cert).nextToken page ≠ "") :
    alnumText ((NewGoogleCT cert).nextToken page)
      ∧ ∃ p q : List Char, page.data = p ++ ((NewGoogleCT cert).nextToken page).data ++ q := by
  have hnum : tokenPattern.NumSubexp + 1 = 5 := by decide
  cases hsearch : tokenPattern.search (List.replicate 5 []) page.data with
  | none =>
    exfalso
    apply h
    have hfind : tokenPattern.FindStringSubmatch page = [] := by
      unfold Regex.FindStringSubmatch
      rw [hnum, hsearch]
    have hdef : (NewGoogleCT cert).nextToken page =
        if (tokenPattern.FindStringSubmatch page).length = 5
            ∧ (tokenPattern.FindStringSubmatch page).getD 3 ""
              ≠ (tokenPattern.FindStringSubmatch page).getD 4 "" then
          (tokenPattern.FindStringSubmatch page).getD 2 "" else "" := rfl
    rw [hdef, hfind]
    rfl
  | some found =>
    obtain ⟨start, r⟩ := found
    obtain ⟨⟨p0, hp0⟩, hr⟩ := search_sound tokenPattern _ page.data start r hsearch
    obtain ⟨hlen, hne, halnum, p, q, hpq⟩ := tokenPattern_match start r hr
    have hfind : tokenPattern.FindStringSubmatch page =
        (r.2.set 0 (start.take (start.length - r.1.length))).map String.mk := by
      unfold Regex.FindStringSubmatch
      rw [hnum, hsearch]
    have hget : (tokenPattern.FindStringSubmatch page).getD 2 "" = ⟨r.2.getD 2 []⟩ := by
      rw [hfind]
      simp only [List.getD_eq_getElem?_getD, List.getElem?_map]
      rw [List.getElem?_set_ne (by decide)]
      cases hg : r.2[2]? with
      | none => rfl
      | some v => rfl
    have hnext : (NewGoogleCT cert).nextToken page = ⟨r.2.getD 2 []⟩ := by
      have hdef : (NewGoogleCT cert).nextToken page =
          if (tokenPattern.FindStringSubmatch page).length = 5
              ∧ (tokenPattern.FindStringSubmatch page).getD 3 ""
                ≠ (tokenPattern.FindStringSubmatch page).getD 4 "" then
            (tokenPattern.FindStringSubmatch page).getD 2 "" else "" := rfl
      rw [hdef] at h ⊢
      split_ifs at h ⊢ with hc
      · exact hget
      · exact absurd rfl h
    rw [hnext]
    refine ⟨?_, p0 ++ p, q, ?_⟩
    · unfold alnumText
      rw [List.all_eq_true]
      intro c hc
      exact halnum c hc
    · rw [hp0, hpq]
      simp

/-! ## The tokens of a run -/

theorem Amass.loop_pages (cert : String) (web : Web) (re : DomainRegexp) (req : DNSRequest)
    (ps : List String) :
    ∀ (fuel n : Nat) (tok : String),
      Serves (NewGoogleCT cert) web req.Domain n tok ps → ps.length < fuel →
      ∃ rest, ((NewGoogleCT cert).loop web re req fuel n tok).trace =
        (NewGoogleCT cert).pagesTrace re req tok ps
          ++ (NewGoogleCT cert).active
            :: Effect.RequestWebPage
              (pageURL req.Domain ((NewGoogleCT cert).lastToken tok ps)) headers
            :: rest := by
  induction ps with
  | nil =>
    intro fuel n tok _ hfuel
    obtain ⟨f, rfl⟩ : ∃ f, fuel = f + 1 := ⟨fuel - 1, by simp at hfuel; omega⟩
    obtain ⟨rest, hrest⟩ := loop_head cert web re req f n tok
    exact ⟨rest, by simpa [GoogleCT.pagesTrace, GoogleCT.lastToken] using hrest⟩
  | cons p ps ih =>
    intro fuel n tok hs hfuel
    obtain ⟨f, rfl⟩ : ∃ f, fuel = f + 1 := ⟨fuel - 1, by simp at hfuel; omega⟩
    obtain ⟨hp, hgo, hrest⟩ := hs
    obtain ⟨rest, hr⟩ := ih f (n + 1) _ hrest (by simp at hfuel; omega)
    refine ⟨rest, ?_⟩
    rw [loop_succ_continue cert web re req f n tok p hp hgo]
    simp [Outcome.after, hr, GoogleCT.pagesTrace, GoogleCT.lastToken]

theorem Amass.urls_of_pages (g : GoogleCT) (d : String) (ps : List String) :
    ∀ tok, (List.range (ps.length + 1)).map (fun i => pageURL d (g.lastToken tok (ps.take i))) =
      pageURL d tok :: ps.map (fun p => pageURL d (g.nextToken p)) := by
  induction ps with
  | nil => intro tok; rfl
  | cons p ps ih =>
    intro tok
    rw [List.length_cons, List.range_succ_eq_map, List.map_cons, List.map_map]
    have h := ih (g.nextToken p)
    simp only [List.map_cons]
    rw [← h]
    simp [GoogleCT.lastToken, Function.comp_def]

theorem Amass.pageURL_token (d t : String) (ht : t ≠ "") (ha : alnumText t) :
    pageURL d t =
      "https://www.google.com/transparencyreport/api/v3/httpsreport/ct/certsearch/page"
        ++ "?domain=" ++ QueryEscape d ++ "&include_expired=true&include_subdomains=true"
        ++ "&p=" ++ t := by
  simp only [pageURL, ne_eq, ht, not_false_eq_true, ↓reduceIte, QueryEscape_alnum t ha]
  apply String.ext
  simp

/-- C16: in a call that fetches the pages `ps`, each leaving a token, the
first `ps.length + 1` fetches are: the first-page URL, without `p`, and then,
for each page of `ps` in order, the `/page` URL whose `p` is, unescaped, the
token taken from that very page; each of these tokens is a non-empty text of
ASCII letters and digits that occurs in its page. -/
theorem Amass.tokens_from_previous_page (cert : String) (web : Web) (fuel : Nat)
    (ctx : Context) (cfg : Config) (bus : EventBus) (re : DomainRegexp) (req : DNSRequest)
    (ps : List String)
    (hcfg : ctx.config = CtxValue.ptr cfg) (hbus : ctx.bus = CtxValue.ptr bus)
    (hre : cfg.DomainRegex req.Domain = some re)
    (hs : Serves (NewGoogleCT cert) web req.Domain 0 "" ps) (hfuel : ps.length < fuel) :
    (fetched ((NewGoogleCT cert).OnDNSRequest web fuel ctx req).trace).take (ps.length + 1) =
        ("https://www.google.com/transparencyreport/api/v3/httpsreport/ct/certsearch"
          ++ "?domain=" ++ QueryEscape req.Domain
          ++ "&include_expired=true&include_subdomains=true")
        :: ps.map (fun p =>
          "https://www.google.com/transparencyreport/api/v3/httpsreport/ct/certsearch/page"
            ++ "?domain=" ++ QueryEscape req.Domain
            ++ "&include_expired=true&include_subdomains=true"
            ++ "&p=" ++ (NewGoogleCT cert).nextToken p)
      ∧ ∀ p ∈ ps, (NewGoogleCT cert).nextToken p ≠ ""
        ∧ alnumText ((NewGoogleCT cert).nextToken p)
        ∧ ∃ x y : List Char, p.data = x ++ ((NewGoogleCT cert).nextToken p).data ++ y := by
  have hne : ∀ q : List String, ∀ n tok, Serves (NewGoogleCT cert) web req.Domain n tok q →
      ∀ p ∈ q, (NewGoogleCT cert).nextToken p ≠ "" := by
    intro q
    induction q with
    | nil => intro n tok _ p hp; simp at hp
    | cons x xs ih =>
      intro n tok hsv p hp
      obtain ⟨_, hx, hrest⟩ := hsv
      rcases List.mem_cons.mp hp with h | h
      · rw [h]; exact hx
      · exact ih _ _ hrest p h
  have htok : ∀ p ∈ ps, (NewGoogleCT cert).nextToken p ≠ ""
      ∧ alnumText ((NewGoogleCT cert).nextToken p)
      ∧ ∃ x y : List Char, p.data = x ++ ((NewGoogleCT cert).nextToken p).data ++ y := by
    intro p hp
    have h1 := hne ps 0 "" hs p hp
    have h2 := nextToken_sound cert p h1
    exact ⟨h1, h2.1, h2.2⟩
  refine ⟨?_, htok⟩
  obtain ⟨rest, hrest⟩ := loop_pages cert web re req ps fuel 0 "" hs hfuel
  rw [OnDNSRequest_loop (NewGoogleCT cert) web fuel ctx cfg bus re req hcfg hbus hre]
  have hq : fetched [(NewGoogleCT cert).querying req] = [] := rfl
  have hsplit : fetched (((NewGoogleCT cert).loop web re req fuel 0 "").after
      [(NewGoogleCT cert).querying req]).trace =
      (List.range (ps.length + 1)).map (fun i =>
        pageURL req.Domain ((NewGoogleCT cert).lastToken "" (ps.take i))) ++ fetched rest := by
    simp only [Outcome.after]
    rw [fetched_append, hq, hrest, fetched_append, fetched_pagesTrace, List.range_succ]
    simp [fetched, GoogleCT.active]
  rw [hsplit, List.take_append_of_le_length (by simp), List.take_of_length_le (by simp),
    urls_of_pages]
  have hfirst : pageURL req.Domain "" =
      "https://www.google.com/transparencyreport/api/v3/httpsreport/ct/certsearch"
        ++ "?domain=" ++ QueryEscape req.Domain
        ++ "&include_expired=true&include_subdomains=true" := by
    simp only [pageURL]
    apply String.ext
    simp
  rw [hfirst]
  congr 1
  apply List.map_congr_left
  intro p hp
  exact pageURL_token req.Domain _ (htok p hp).1 (htok p hp).2.1

/-- Witness of C16: the sample run, whose first page leaves the token
`abc`. -/
theorem Amass.tokens_from_previous_page_witness :
    (fetched ((NewGoogleCT "cert").OnDNSRequest sampleWeb 2 sampleCtx sampleReq).trace).take
        ([pageOne].length + 1) =
        ("https://www.google.com/transparencyreport/api/v3/httpsreport/ct/certsearch"
          ++ "?domain=" ++ QueryEscape sampleReq.Domain
          ++ "&include_expired=true&include_subdomains=true")
        :: [pageOne].map (fun p =>
          "https://www.google.com/transparencyreport/api/v3/httpsreport/ct/certsearch/page"
            ++ "?domain=" ++ QueryEscape sampleReq.Domain
            ++ "&include_expired=true&include_subdomains=true"
            ++ "&p=" ++ (NewGoogleCT "cert").nextToken p)
      ∧ ∀ p ∈ [pageOne], (NewGoogleCT "cert").nextToken p ≠ ""
        ∧ alnumText ((NewGoogleCT "cert").nextToken p)
        ∧ ∃ x y : List Char, p.data = x ++ ((NewGoogleCT "cert").nextToken p).data ++ y :=
  tokens_from_previous_page "cert" sampleWeb 2 sampleCtx sampleCfg EventBus.mk sampleRe
    sampleReq [pageOne] rfl rfl rfl ⟨rfl, by decide, trivial⟩ (by decide)

/-- An instance of C14: a domain with a space, `&`, `=`, `#`, `%` and a
non-ASCII letter, and the token `abc123`. -/
theorem Amass.query_roundtrip_witness :
    ∃ u, (NewGoogleCT "cert").getURL "a b&c=d#e%é" "abc123" = some u
      ∧ ParseQuery (rawQueryOf u) =
        ([(bytesOf "domain", [bytesOf "a b&c=d#e%é"]),
            (bytesOf "include_expired", [bytesOf "true"]),
            (bytesOf "include_subdomains", [bytesOf "true"])]
          ++ (if ("abc123" : String) ≠ "" then [(bytesOf "p", [bytesOf "abc123"])] else []),
          false) :=
  query_roundtrip "cert" "a b&c=d#e%é" "abc123"


/-! ## The place of the rate-limit wait -/

theorem Amass.Phase_run_append (xs ys : List Effect) :
    ∀ p, Phase.run p (xs ++ ys) = (Phase.run p xs).bind (fun q => Phase.run q ys) := by
  induction xs with
  | nil => intro p; rfl
  | cons e es ih =>
    intro p
    simp only [List.cons_append, Phase.run]
    cases p.next e with
    | none => rfl
    | some q => exact ih q

theorem Amass.Phase_run_names (g : GoogleCT) (re : DomainRegexp) (req : DNSRequest)
    (page : String) (p : Phase) (hp : p = Phase.fetched ∨ p = Phase.naming) :
    ∃ q, (q = Phase.fetched ∨ q = Phase.naming)
      ∧ Phase.run p (g.names re req page) = some q := by
  simp only [GoogleCT.names]
  induction re.FindAllString page generalizing p with
  | nil => exact ⟨p, hp, rfl⟩
  | cons x xs ih =>
    obtain ⟨q, hq, hrun⟩ := ih Phase.naming (Or.inr rfl)
    refine ⟨q, hq, ?_⟩
    rcases hp with rfl | rfl <;> simpa [Phase.run, Phase.next, GoogleCT.newName] using hrun

theorem Amass.Phase_wait (q : Phase) (hq : q = Phase.fetched ∨ q = Phase.naming) :
    q.next Effect.CheckRateLimit = some Phase.waited := by
  rcases hq with rfl | rfl <;> rfl

theorem Amass.Phase_open (g : GoogleCT) (u : String) (p : Phase)
    (hp : p = Phase.idle ∨ p = Phase.waited) (rest : List Effect) :
    Phase.run p (g.active :: Effect.RequestWebPage u headers :: rest) =
      Phase.run Phase.fetched rest := by
  rcases hp with rfl | rfl <;> simp [Phase.run, Phase.next, GoogleCT.active]

theorem Amass.loop_phase (cert : String) (web : Web) (re : DomainRegexp) (req : DNSRequest)
    (fuel : Nat) :
    ∀ (n : Nat) (tok : String) (p : Phase), (p = Phase.idle ∨ p = Phase.waited) →
      ∃ q, Phase.run p ((NewGoogleCT cert).loop web re req fuel n tok).trace = some q
        ∧ (((NewGoogleCT cert).loop web re req fuel n tok).status = Status.returned →
          q ≠ Phase.waited) := by
  induction fuel with
  | zero =>
    intro n tok p _
    exact ⟨p, rfl, by intro h; simp [GoogleCT.loop] at h⟩
  | succ fuel ih =>
    intro n tok p hp
    cases h : web n (pageURL req.Domain tok) with
    | error err =>
      rw [loop_succ_error cert web re req fuel n tok err h]
      refine ⟨Phase.failed, ?_, by intro _; decide⟩
      simp only [GoogleCT.lastTrace]
      rw [Phase_open _ _ p hp]
      simp [Phase.run, Phase.next, GoogleCT.failure]
    | ok page =>
      obtain ⟨q, hq, hnames⟩ := Phase_run_names (NewGoogleCT cert) re req page Phase.fetched
        (Or.inl rfl)
      by_cases hstop : (NewGoogleCT cert).nextToken page = ""
      · rw [loop_succ_stop cert web re req fuel n tok page h hstop]
        refine ⟨q, ?_, by intro _; rcases hq with rfl | rfl <;> decide⟩
        simp only [GoogleCT.lastTrace]
        rw [Phase_open _ _ p hp]
        exact hnames
      · rw [loop_succ_continue cert web re req fuel n tok page h hstop]
        obtain ⟨q2, hrun2, hq2⟩ := ih (n + 1) ((NewGoogleCT cert).nextToken page) Phase.waited
          (Or.inr rfl)
        refine ⟨q2, ?_, hq2⟩
        simp only [Outcome.after, List.cons_append, List.append_assoc]
        rw [Phase_open _ _ p hp, Phase_run_append, hnames]
        simp only [Option.some_bind, List.cons_append, List.nil_append, Phase.run,
          Phase_wait q hq]
        exact hrun2

theorem Amass.Phase_last_wait (tr : List Effect) :
    ∀ p q, Phase.run p tr = some q → tr.getLast? = some Effect.CheckRateLimit →
      q = Phase.waited := by
  induction tr with
  | nil => intro p q _ h; simp at h
  | cons e es ih =>
    intro p q hrun hlast
    cases es with
    | nil =>
      simp only [List.getLast?_singleton, Option.some.injEq] at hlast
      subst hlast
      simp only [Phase.run] at hrun
      cases p <;> simp [Phase.next] at hrun <;> exact hrun.symm
    | cons e2 es2 =>
      simp only [Phase.run] at hrun
      cases hn : p.next e with
      | none => simp [hn] at hrun
      | some p2 =>
        simp only [hn] at hrun
        rw [List.getLast?_cons_cons] at hlast
        exact ih p2 q hrun hlast

theorem Amass.loop_urls (cert : String) (web : Web) (re : DomainRegexp) (req : DNSRequest)
    (fuel : Nat) :
    ∀ (n : Nat) (tok : String),
      ∀ u ∈ fetched ((NewGoogleCT cert).loop web re req fuel n tok).trace,
        ∃ t, pageURL req.Domain t = u := by
  induction fuel with
  | zero => intro n tok u hu; simp [GoogleCT.loop, fetched] at hu
  | succ fuel ih =>
    intro n tok u hu
    cases h : web n (pageURL req.Domain tok) with
    | error err =>
      rw [loop_succ_error cert web re req fuel n tok err h] at hu
      simp only [fetched_lastTrace, List.mem_singleton] at hu
      exact ⟨tok, hu.symm⟩
    | ok page =>
      by_cases hstop : (NewGoogleCT cert).nextToken page = ""
      · rw [loop_succ_stop cert web re req fuel n tok page h hstop] at hu
        simp only [fetched_lastTrace, List.mem_singleton] at hu
        exact ⟨tok, hu.symm⟩
      · rw [loop_succ_continue cert web re req fuel n tok page h hstop] at hu
        have hf := fetched_names (NewGoogleCT cert) re req page
        have hfe : fetched (((NewGoogleCT cert).loop web re req fuel (n + 1)
            ((NewGoogleCT cert).nextToken page)).after
              ((NewGoogleCT cert).active :: Effect.RequestWebPage (pageURL req.Domain tok) headers
                :: (NewGoogleCT cert).names re req page ++ [Effect.CheckRateLimit])).trace =
            pageURL req.Domain tok :: fetched ((NewGoogleCT cert).loop web re req fuel (n + 1)
              ((NewGoogleCT cert).nextToken page)).trace := by
          simp only [fetched] at hf ⊢
          simp [Outcome.after, GoogleCT.active, List.filterMap_append, hf]
        rw [hfe] at hu
        rcases List.mem_cons.mp hu with hu | hu
        · exact ⟨tok, hu.symm⟩
        · exact ih _ _ u hu

/-- C12 (amended): in every call, the effects come in the order start log,
then, for each iteration, heartbeat, fetch, and the failure log or the names
of the page, a rate-limit wait standing only after the fetch and the names
of an iteration and before the heartbeat of the next. No wait comes before
the first fetch and exactly one between each later fetch and the fetch
before it; a call that has returned does not end on a wait; and every URL
fetched is one that `getURL` builds for the domain of the request. -/
theorem Amass.rate_limit_between_fetches (cert : String) (web : Web) (fuel : Nat)
    (ctx : Context) (req : DNSRequest) :
    waitsBefore 0 ((NewGoogleCT cert).OnDNSRequest web fuel ctx req).trace =
        (List.range (fetched ((NewGoogleCT cert).OnDNSRequest web fuel ctx req).trace).length).map
          (fun i => if i = 0 then 0 else 1)
      ∧ (Phase.run Phase.begun ((NewGoogleCT cert).OnDNSRequest web fuel ctx req).trace).isSome
        = true
      ∧ (((NewGoogleCT cert).OnDNSRequest web fuel ctx req).status = Status.returned →
        ((NewGoogleCT cert).OnDNSRequest web fuel ctx req).trace.getLast?
          ≠ some Effect.CheckRateLimit)
      ∧ ∀ u ∈ fetched ((NewGoogleCT cert).OnDNSRequest web fuel ctx req).trace,
        ∃ t, (NewGoogleCT cert).getURL req.Domain t = some u := by
  rcases OnDNSRequest_cases (NewGoogleCT cert) web fuel ctx req with h | ⟨re, h⟩
  · refine ⟨by rw [h]; rfl, by rw [h]; rfl, by intro _; rw [h]; simp, ?_⟩
    rw [h]
    intro u hu
    simp [fetched] at hu
  · obtain ⟨q, hrun, hq⟩ := loop_phase cert web re req fuel 0 "" Phase.idle (Or.inl rfl)
    have hphase : Phase.run Phase.begun
        (((NewGoogleCT cert).loop web re req fuel 0 "").after
          [(NewGoogleCT cert).querying req]).trace = some q := by
      simpa [Outcome.after, GoogleCT.querying, Phase.run, Phase.next] using hrun
    rw [h]
    refine ⟨?_, by rw [hphase]; rfl, ?_, ?_⟩
    · have hl := waitsBefore_loop cert web re req fuel 0 "" 0
      simpa [Outcome.after, GoogleCT.querying, waitsBefore, fetched] using hl
    · intro hret hlast
      exact hq hret (Phase_last_wait _ _ _ hphase hlast)
    · intro u hu
      have hq2 : fetched [(NewGoogleCT cert).querying req] = [] := rfl
      have hu2 : u ∈ fetched ((NewGoogleCT cert).loop web re req fuel 0 "").trace := by
        simpa [Outcome.after, fetched_append, hq2] using hu
      obtain ⟨t, ht⟩ := loop_urls cert web re req fuel 0 "" u hu2
      exact ⟨t, by rw [getURL_eq_pageURL, ht]⟩

/-- An instance of C12 (amended) with two fetches, the sample run; and a
trace that the order excludes: `misplacedWait`, where the wait comes between
a fetch and the names of its page. -/
theorem Amass.rate_limit_between_fetches_witness :
    ((fetched ((NewGoogleCT "cert").OnDNSRequest sampleWeb 5 sampleCtx sampleReq).trace).length = 2
      ∧ Phase.run Phase.begun misplacedWait = none)
      ∧ (waitsBefore 0 ((NewGoogleCT "cert").OnDNSRequest sampleWeb 5 sampleCtx sampleReq).trace =
          (List.range
            (fetched ((NewGoogleCT "cert").OnDNSRequest sampleWeb 5 sampleCtx sampleReq).trace).length).map
            (fun i => if i = 0 then 0 else 1)
        ∧ (Phase.run Phase.begun
            ((NewGoogleCT "cert").OnDNSRequest sampleWeb 5 sampleCtx sampleReq).trace).isSome = true
        ∧ (((NewGoogleCT "cert").OnDNSRequest sampleWeb 5 sampleCtx sampleReq).status
            = Status.returned →
          ((NewGoogleCT "cert").OnDNSRequest sampleWeb 5 sampleCtx sampleReq).trace.getLast?
            ≠ some Effect.CheckRateLimit)
        ∧ ∀ u ∈ fetched ((NewGoogleCT "cert").OnDNSRequest sampleWeb 5 sampleCtx sampleReq).trace,
          ∃ t, (NewGoogleCT "cert").getURL sampleReq.Domain t = some u) :=
  ⟨⟨by decide, by decide⟩, rate_limit_between_fetches "cert" sampleWeb 5 sampleCtx sampleReq⟩
